import Mathlib

/-!
Shallow embedding of the `chess-tools` repository (board.py, attacks.py,
tactics.py, analyze_move.py), together with proofs of the specification
claims about it.

Python dictionaries (`Board.pieces : Dict[int, Piece]`) are embedded as
association lists `List (Nat × Piece)` with Python-dict semantics:
lookup returns the first matching entry, assignment updates an existing
key in place or appends a fresh one, and `pop` removes the first entry
for the key.  A real Python dict never holds a duplicate key, which is
expressed by the well-formedness predicate `goodKeys` where it matters.
-/

namespace ChessTools

/-- `Color` enum from board.py. -/
inductive Color where
  | WHITE
  | BLACK
deriving DecidableEq, Repr

/-- `Color.opposite` property from board.py. -/
def Color.opposite : Color → Color
  | .WHITE => .BLACK
  | .BLACK => .WHITE

/-- `PieceType` enum from board.py. -/
inductive PieceType where
  | PAWN
  | KNIGHT
  | BISHOP
  | ROOK
  | QUEEN
  | KING
deriving DecidableEq, Repr

/-- `PieceType.value`: the FEN character of each piece type (board.py). -/
def PieceType.value : PieceType → Char
  | .PAWN => 'p'
  | .KNIGHT => 'n'
  | .BISHOP => 'b'
  | .ROOK => 'r'
  | .QUEEN => 'q'
  | .KING => 'k'

/-- Inverse of `PieceType.value`; the Python enum constructor
`PieceType(char)` raises on an unknown character, embedded as `none`. -/
def pieceTypeOfChar (c : Char) : Option PieceType :=
  if c = 'p' then some .PAWN
  else if c = 'n' then some .KNIGHT
  else if c = 'b' then some .BISHOP
  else if c = 'r' then some .ROOK
  else if c = 'q' then some .QUEEN
  else if c = 'k' then some .KING
  else none

/-- `Piece` dataclass from board.py. -/
structure Piece where
  piece_type : PieceType
  color : Color
deriving DecidableEq, Repr

/-- `Piece.__str__` from board.py: FEN char, uppercase for White. -/
def Piece.str (p : Piece) : String :=
  String.singleton (if p.color = Color.WHITE then p.piece_type.value.toUpper else p.piece_type.value)

/-- `Piece.from_char` from board.py (raises on unknown char → `none`). -/
def Piece.from_char (c : Char) : Option Piece :=
  (pieceTypeOfChar c.toLower).map fun ty =>
    { piece_type := ty, color := if c.isUpper then Color.WHITE else Color.BLACK }

/-- `Square` dataclass from board.py: index 0-63, 0=a1, 7=h1, 56=a8, 63=h8.
Python allows any integer index; the data-model invariant of the spec is
`index ∈ [0,63]`, embedded as `index < 64` hypotheses where needed. -/
structure Square where
  index : Nat
deriving DecidableEq, Repr

/-- `Square.file` from board.py: `index % 8`. -/
def Square.file (s : Square) : Nat := s.index % 8

/-- `Square.rank` from board.py: `index // 8`. -/
def Square.rank (s : Square) : Nat := s.index / 8

/-- `Square.file_char` from board.py. -/
def Square.file_char (s : Square) : Char := Char.ofNat (97 + s.file)

/-- `Square.rank_char` from board.py: `str(rank + 1)`. -/
def Square.rank_char (s : Square) : String := toString (s.rank + 1)

/-- `Square.name` from board.py: e.g. "e4". -/
def Square.name (s : Square) : String := String.singleton s.file_char ++ s.rank_char

/-- `Square.offset` from board.py: offset by (Δfile, Δrank); `None`
when either coordinate leaves [0,7]. -/
def Square.offset (s : Square) (file_delta rank_delta : Int) : Option Square :=
  let new_file : Int := (s.file : Int) + file_delta
  let new_rank : Int := (s.rank : Int) + rank_delta
  if 0 ≤ new_file ∧ new_file ≤ 7 ∧ 0 ≤ new_rank ∧ new_rank ≤ 7 then
    some ⟨(new_rank * 8 + new_file).toNat⟩
  else
    none

/-- `Square.from_algebraic` from board.py: "e4" → square.  Python indexes
`name[0]`/`name[1]` and calls `int(name[1])`, raising on malformed input
(→ `none`). -/
def Square.from_algebraic (nm : String) : Option Square :=
  match nm.toList with
  | c0 :: c1 :: _ =>
    if c1.isDigit then
      let file := c0.toLower.toNat - 97
      let rank := (c1.toNat - 48) - 1
      some ⟨rank * 8 + file⟩
    else none
  | _ => none

/-! ### Python dict semantics over association lists -/

/-- Python `dict.get`: first entry with the key. -/
def dictGet (m : List (Nat × Piece)) (k : Nat) : Option Piece :=
  match m with
  | [] => none
  | e :: rest => if e.1 = k then some e.2 else dictGet rest k

/-- Python `dict[k] = v`: replace the value at an existing key in place,
otherwise append a fresh entry. -/
def dictInsert (m : List (Nat × Piece)) (k : Nat) (v : Piece) : List (Nat × Piece) :=
  if m.any (fun e => e.1 = k) then
    m.map (fun e => if e.1 = k then (k, v) else e)
  else
    m ++ [(k, v)]

/-- Python `dict.pop(k, None)`: remove the first entry with the key and
return it (or `none`). -/
def dictPop (m : List (Nat × Piece)) (k : Nat) : List (Nat × Piece) × Option Piece :=
  match m with
  | [] => ([], none)
  | e :: rest =>
    if e.1 = k then (rest, some e.2)
    else
      let r := dictPop rest k
      (e :: r.1, r.2)

/-- Keys of a Python dict are pairwise distinct. -/
def goodKeys (m : List (Nat × Piece)) : Prop := (m.map Prod.fst).Nodup

instance (m : List (Nat × Piece)) : Decidable (goodKeys m) := by
  unfold goodKeys; infer_instance

/-- `Board` class from board.py. -/
structure Board where
  pieces : List (Nat × Piece)
  turn : Color
  castling_rights : String
  en_passant : Option Square
  halfmove_clock : Nat
  fullmove_number : Nat
deriving DecidableEq, Repr

/-- `Board.__init__` defaults from board.py. -/
def Board.init : Board :=
  { pieces := [], turn := Color.WHITE, castling_rights := "KQkq",
    en_passant := none, halfmove_clock := 0, fullmove_number := 1 }

/-- `Board.get` from board.py. -/
def Board.get (b : Board) (square : Square) : Option Piece :=
  dictGet b.pieces square.index

/-- `Board.set` from board.py. -/
def Board.set (b : Board) (square : Square) (piece : Option Piece) : Board :=
  match piece with
  | none => { b with pieces := (dictPop b.pieces square.index).1 }
  | some p => { b with pieces := dictInsert b.pieces square.index p }

/-- `Board.is_empty` from board.py. -/
def Board.is_empty (b : Board) (square : Square) : Bool :=
  decide (b.get square = none)

/-- `Board.get_pieces_by_color` from board.py. -/
def Board.get_pieces_by_color (b : Board) (color : Color) : List (Square × Piece) :=
  (b.pieces.filter (fun e => e.2.color = color)).map (fun e => (⟨e.1⟩, e.2))

/-- `Board.get_pieces_by_type` from board.py. -/
def Board.get_pieces_by_type (b : Board) (ty : PieceType) (color : Option Color) :
    List (Square × Piece) :=
  (b.pieces.filter (fun e => e.2.piece_type = ty ∧ (color = none ∨ color = some e.2.color))).map
    (fun e => (⟨e.1⟩, e.2))

/-- `Board.find_king` from board.py. -/
def Board.find_king (b : Board) (color : Color) : Option Square :=
  ((b.get_pieces_by_type PieceType.KING (some color)).head?).map Prod.fst

/-- Piece-placement loop of `Board.from_fen` (board.py): walk the FEN
placement field left to right, tracking rank (from 7 downward, as `Int`
since Python lets it underflow) and file. -/
def placePieces : List Char → Int → Int → List (Nat × Piece) → Option (List (Nat × Piece))
  | [], _, _, acc => some acc
  | c :: rest, rank, file, acc =>
    if c = '/' then placePieces rest (rank - 1) 0 acc
    else if c.isDigit then placePieces rest rank (file + ((c.toNat : Int) - 48)) acc
    else
      match Piece.from_char c with
      | none => none
      | some p => placePieces rest rank (file + 1) (dictInsert acc (rank * 8 + file).toNat p)

/-- `fen.split()` of board.py: split the character list on spaces
(structurally, so that kernel evaluation works). -/
def splitOnSpace : List Char → List (List Char)
  | [] => [[]]
  | c :: rest =>
    let r := splitOnSpace rest
    if c = ' ' then [] :: r
    else
      match r with
      | g :: gs => (c :: g) :: gs
      | [] => [[c]]

/-- Python `int(str)` on a decimal numeral (raises otherwise → `none`). -/
def parseNat (cs : List Char) : Option Nat :=
  if cs ≠ [] ∧ cs.all Char.isDigit then
    some (cs.foldl (fun acc c => acc * 10 + (c.toNat - 48)) 0)
  else none

/-- `Board.from_fen` from board.py.  Python raises on malformed fields
(unknown piece char, bad en-passant square, bad integers), embedded as
`none`. -/
def Board.from_fen (fen : String) : Option Board :=
  match splitOnSpace fen.toList with
  | [] => none
  | placement :: rest =>
    match placePieces placement 7 0 [] with
    | none => none
    | some pieces =>
      let turn : Color :=
        match rest.get? 0 with
        | some t => if t = ['w'] then Color.WHITE else Color.BLACK
        | none => Color.WHITE
      let castling : String :=
        match rest.get? 1 with
        | some c => if c ≠ ['-'] then String.mk c else ""
        | none => "KQkq"
      let epOpt : Option (Option Square) :=
        match rest.get? 2 with
        | some e =>
          if e ≠ ['-'] then
            match Square.from_algebraic (String.mk e) with
            | some s => some (some s)
            | none => none
          else some none
        | none => some none
      let halfOpt : Option Nat :=
        match rest.get? 3 with
        | some h => parseNat h
        | none => some 0
      let fullOpt : Option Nat :=
        match rest.get? 4 with
        | some f => parseNat f
        | none => some 1
      match epOpt, halfOpt, fullOpt with
      | some ep, some half, some full =>
        some { pieces := pieces, turn := turn, castling_rights := castling,
               en_passant := ep, halfmove_clock := half, fullmove_number := full }
      | _, _, _ => none

/-- A parsed FEN board, defaulting to the empty board; used to state
concrete scenario theorems without binders. -/
def fenBoard (fen : String) : Board := (Board.from_fen fen).getD Board.init

/-! ### attacks.py -/

/-- `KNIGHT_OFFSETS` from attacks.py. -/
def KNIGHT_OFFSETS : List (Int × Int) :=
  [(1, 2), (2, 1), (2, -1), (1, -2), (-1, -2), (-2, -1), (-2, 1), (-1, 2)]

/-- `KING_OFFSETS` from attacks.py. -/
def KING_OFFSETS : List (Int × Int) :=
  [(0, 1), (1, 1), (1, 0), (1, -1), (0, -1), (-1, -1), (-1, 0), (-1, 1)]

/-- `BISHOP_DIRECTIONS` from attacks.py. -/
def BISHOP_DIRECTIONS : List (Int × Int) := [(1, 1), (1, -1), (-1, 1), (-1, -1)]

/-- `ROOK_DIRECTIONS` from attacks.py. -/
def ROOK_DIRECTIONS : List (Int × Int) := [(0, 1), (0, -1), (1, 0), (-1, 0)]

/-- `QUEEN_DIRECTIONS` from attacks.py. -/
def QUEEN_DIRECTIONS : List (Int × Int) := BISHOP_DIRECTIONS ++ ROOK_DIRECTIONS

/-- The `while` loop of `check_sliding` inside `get_attackers` (and the
first/second-occupant loops of tactics.py): step repeatedly in direction
`d` from `cur` and return the first occupied square with its piece, or
`none` when the board edge is reached first.  The Python loop is
unbounded; any walk terminates within 8 steps (proved below), so fuel 16
is more than enough and the embedding is total. -/
def firstOccWalk (board : Board) (d : Int × Int) : Square → Nat → Option (Square × Piece)
  | _, 0 => none
  | cur, fuel + 1 =>
    match cur.offset d.1 d.2 with
    | none => none
    | some next =>
      match board.get next with
      | some piece => some (next, piece)
      | none => firstOccWalk board d next fuel

/-- Knight probe of `get_attackers` (attacks.py). -/
def knightAttackers (board : Board) (target : Square) (by_color : Option Color) :
    List (Square × Piece) :=
  KNIGHT_OFFSETS.filterMap fun o =>
    match target.offset o.1 o.2 with
    | none => none
    | some attacker_sq =>
      match board.get attacker_sq with
      | some piece =>
        if piece.piece_type = PieceType.KNIGHT ∧ (by_color = none ∨ by_color = some piece.color)
        then some (attacker_sq, piece) else none
      | none => none

/-- King probe of `get_attackers` (attacks.py). -/
def kingAttackers (board : Board) (target : Square) (by_color : Option Color) :
    List (Square × Piece) :=
  KING_OFFSETS.filterMap fun o =>
    match target.offset o.1 o.2 with
    | none => none
    | some attacker_sq =>
      match board.get attacker_sq with
      | some piece =>
        if piece.piece_type = PieceType.KING ∧ (by_color = none ∨ by_color = some piece.color)
        then some (attacker_sq, piece) else none
      | none => none

/-- Pawn probe of `get_attackers` (attacks.py): for each color (White
looks one rank below the target, Black one rank above), skipped when the
color filter excludes that color. -/
def pawnAttackers (board : Board) (target : Square) (by_color : Option Color) :
    List (Square × Piece) :=
  [(Color.WHITE, (-1 : Int)), (Color.BLACK, (1 : Int))].flatMap fun cd =>
    if by_color ≠ none ∧ by_color ≠ some cd.1 then []
    else
      [(-1 : Int), 1].filterMap fun file_dir =>
        match target.offset file_dir cd.2 with
        | none => none
        | some attacker_sq =>
          match board.get attacker_sq with
          | some piece =>
            if piece.piece_type = PieceType.PAWN ∧ piece.color = cd.1
            then some (attacker_sq, piece) else none
          | none => none

/-- `check_sliding` inner function of `get_attackers` (attacks.py): for
each direction, walk to the first occupant (the walk is factored out as
`firstOccWalk`); it is recorded iff its type is compatible and the color
filter accepts it, and it blocks the ray regardless. -/
def check_sliding (board : Board) (target : Square) (by_color : Option Color)
    (directions : List (Int × Int)) (valid_types : List PieceType) :
    List (Square × Piece) :=
  directions.flatMap fun d =>
    match firstOccWalk board d target 16 with
    | some (sq, piece) =>
      if piece.piece_type ∈ valid_types ∧ (by_color = none ∨ by_color = some piece.color)
      then [(sq, piece)] else []
    | none => []

/-- `get_attackers` from attacks.py: knight probe, king probe, pawn
probe, diagonal sliders, orthogonal sliders, in that order. -/
def get_attackers (board : Board) (target : Square) (by_color : Option Color) :
    List (Square × Piece) :=
  knightAttackers board target by_color ++
  kingAttackers board target by_color ++
  pawnAttackers board target by_color ++
  check_sliding board target by_color BISHOP_DIRECTIONS [PieceType.BISHOP, PieceType.QUEEN] ++
  check_sliding board target by_color ROOK_DIRECTIONS [PieceType.ROOK, PieceType.QUEEN]

/-- `get_defenders` from attacks.py. -/
def get_defenders (board : Board) (target : Square) : List (Square × Piece) :=
  match board.get target with
  | none => []
  | some piece => get_attackers board target (some piece.color)

/-- `is_attacked` from attacks.py. -/
def is_attacked (board : Board) (target : Square) (by_color : Color) : Bool :=
  decide ((get_attackers board target (some by_color)).length > 0)

/-- `is_defended` from attacks.py. -/
def is_defended (board : Board) (target : Square) : Bool :=
  decide ((get_defenders board target).length > 0)

/-- `is_hanging` from attacks.py. -/
def is_hanging (board : Board) (target : Square) : Bool :=
  match board.get target with
  | none => false
  | some piece =>
    let enemy_color := piece.color.opposite
    let attackers := get_attackers board target (some enemy_color)
    let defenders := get_defenders board target
    decide (attackers.length > 0 ∧ defenders.length = 0)

/-- `is_protected` from attacks.py (count-only heuristic). -/
def is_protected (board : Board) (target : Square) : Bool :=
  match board.get target with
  | none => true
  | some piece =>
    let enemy_color := piece.color.opposite
    let attackers := get_attackers board target (some enemy_color)
    let defenders := get_defenders board target
    decide (defenders.length ≥ attackers.length)

/-- `attack_count` from attacks.py. -/
def attack_count (board : Board) (target : Square) (by_color : Color) : Nat :=
  (get_attackers board target (some by_color)).length

/-- `defense_count` from attacks.py. -/
def defense_count (board : Board) (target : Square) : Nat :=
  (get_defenders board target).length

/-- Slider loop of `get_attacked_by_piece` (attacks.py): collect every
square stepped over, including the first occupied one, then stop. -/
def attackRay (board : Board) (d : Int × Int) : Square → Nat → List Square
  | _, 0 => []
  | cur, fuel + 1 =>
    match cur.offset d.1 d.2 with
    | none => []
    | some next =>
      next :: (match board.get next with
               | some _ => []
               | none => attackRay board d next fuel)

/-- `get_attacked_by_piece` from attacks.py (Python returns a set; the
embedding keeps the generated elements as a list, used only up to
membership).  The queen reaches the diagonal branch of the `elif` chain
and additionally the trailing orthogonal `if`. -/
def get_attacked_by_piece (board : Board) (from_square : Square) (piece : Piece) :
    List Square :=
  let base :=
    match piece.piece_type with
    | .KNIGHT => KNIGHT_OFFSETS.filterMap fun o => from_square.offset o.1 o.2
    | .KING => KING_OFFSETS.filterMap fun o => from_square.offset o.1 o.2
    | .PAWN =>
      let rank_dir : Int := if piece.color = Color.WHITE then 1 else -1
      [(-1 : Int), 1].filterMap fun file_dir => from_square.offset file_dir rank_dir
    | .BISHOP => BISHOP_DIRECTIONS.flatMap fun d => attackRay board d from_square 16
    | .QUEEN => BISHOP_DIRECTIONS.flatMap fun d => attackRay board d from_square 16
    | .ROOK => []
  let ortho :=
    if piece.piece_type = PieceType.ROOK ∨ piece.piece_type = PieceType.QUEEN then
      ROOK_DIRECTIONS.flatMap fun d => attackRay board d from_square 16
    else []
  base ++ ortho

/-- Result dictionary of `analyze_square` (attacks.py). -/
structure SquareAnalysis where
  square : String
  piece : Option String
  white_attackers : List (String × String)
  black_attackers : List (String × String)
  defenders : List (String × String)
  is_hanging : Bool
  is_protected : Bool
deriving DecidableEq, Repr

/-- `(s.name, str(p))` rendering used throughout the repository. -/
def fmtPieces (l : List (Square × Piece)) : List (String × String) :=
  l.map fun sp => (sp.1.name, sp.2.str)

/-- `analyze_square` from attacks.py. -/
def analyze_square (board : Board) (target : Square) : SquareAnalysis :=
  let piece := board.get target
  let white_attackers := get_attackers board target (some Color.WHITE)
  let black_attackers := get_attackers board target (some Color.BLACK)
  match piece with
  | some p =>
    let enemy_color := p.color.opposite
    let enemy_attackers := if enemy_color = Color.WHITE then white_attackers else black_attackers
    let defenders := get_defenders board target
    { square := target.name
      piece := some p.str
      white_attackers := fmtPieces white_attackers
      black_attackers := fmtPieces black_attackers
      defenders := fmtPieces defenders
      is_hanging := decide (enemy_attackers.length > 0 ∧ defenders.length = 0)
      is_protected := decide (defenders.length ≥ enemy_attackers.length) }
  | none =>
    { square := target.name
      piece := none
      white_attackers := fmtPieces white_attackers
      black_attackers := fmtPieces black_attackers
      defenders := []
      is_hanging := false
      is_protected := true }

/-! ### tactics.py (find_pins) -/

namespace Tactics

/-- `PIECE_VALUES` from tactics.py (KING = 100). -/
def PIECE_VALUES : PieceType → Int
  | .PAWN => 1
  | .KNIGHT => 3
  | .BISHOP => 3
  | .ROOK => 5
  | .QUEEN => 9
  | .KING => 100

/-- `get_piece_value` from tactics.py. -/
def get_piece_value (piece : Piece) : Int := PIECE_VALUES piece.piece_type

/-- Pin record dictionary produced by `find_pins` (tactics.py). -/
structure PinRecord where
  pinned_piece : String
  pinned_square : String
  pinned_value : Int
  pinning_piece : String
  pinning_square : String
  protected_piece : String
  protected_square : String
  protected_value : Int
  pin_type : String
  is_absolute : Bool
deriving DecidableEq, Repr

/-- First/second-occupant collection loop of `find_pins` (tactics.py):
walk outward, remember the first occupied square, keep walking, stop at
the second.  Factored through `firstOccWalk`: the second occupant is the
first occupant as seen from the first one. -/
def firstTwoOcc (board : Board) (d : Int × Int) (start : Square) :
    Option (Square × Piece) × Option (Square × Piece) :=
  match firstOccWalk board d start 16 with
  | none => (none, none)
  | some fp => (some fp, firstOccWalk board d fp.1 16)

/-- `find_pins` from tactics.py: for each friendly King/Queen/Rook and
each of the 8 directions, record a pin when the first occupant is
friendly and the second is an enemy slider compatible with the ray. -/
def find_pins (board : Board) (color : Color) : List PinRecord :=
  let enemy_color := color.opposite
  (board.get_pieces_by_color color).flatMap fun pe =>
    if pe.2.piece_type ∈ [PieceType.KING, PieceType.QUEEN, PieceType.ROOK] then
      (BISHOP_DIRECTIONS ++ ROOK_DIRECTIONS).flatMap fun d =>
        match firstTwoOcc board d pe.1 with
        | (some fp, some sp) =>
          if fp.2.color = color ∧ sp.2.color = enemy_color then
            let is_diagonal := d.1.natAbs = d.2.natAbs
            let can_pin :=
              if is_diagonal then sp.2.piece_type ∈ [PieceType.BISHOP, PieceType.QUEEN]
              else sp.2.piece_type ∈ [PieceType.ROOK, PieceType.QUEEN]
            if can_pin then
              [{ pinned_piece := fp.2.str
                 pinned_square := fp.1.name
                 pinned_value := get_piece_value fp.2
                 pinning_piece := sp.2.str
                 pinning_square := sp.1.name
                 protected_piece := pe.2.str
                 protected_square := pe.1.name
                 protected_value := get_piece_value pe.2
                 pin_type := if is_diagonal then "diagonal" else "orthogonal"
                 is_absolute := decide (pe.2.piece_type = PieceType.KING) }]
            else []
          else []
        | _ => []
    else []

end Tactics

/-! ### analyze_move.py -/

namespace AnalyzeMove

/-- `PIECE_VALUES` from analyze_move.py (KING = 1000). -/
def PIECE_VALUES : PieceType → Int
  | .PAWN => 1
  | .KNIGHT => 3
  | .BISHOP => 3
  | .ROOK => 5
  | .QUEEN => 9
  | .KING => 1000

/-- `get_piece_value` from analyze_move.py. -/
def get_piece_value (piece : Piece) : Int := PIECE_VALUES piece.piece_type

end AnalyzeMove

/-- `simulate_move` from analyze_move.py: copy the board, flip the turn,
clear en passant, pop the piece off `from_sq` and (when present) place
it on `to_sq`. -/
def simulate_move (board : Board) (from_sq to_sq : Square) : Board :=
  let copied := board.pieces
  let popped := dictPop copied from_sq.index
  let pieces :=
    match popped.2 with
    | some piece => dictInsert popped.1 to_sq.index piece
    | none => popped.1
  { pieces := pieces
    turn := board.turn.opposite
    castling_rights := board.castling_rights
    en_passant := none
    halfmove_clock := board.halfmove_clock
    fullmove_number := board.fullmove_number }

/-- `exchange_analysis` dictionary of `analyze_move` (analyze_move.py);
keys absent in the no-recapturer branch are `none`. -/
structure ExchangeAnalysis where
  capturing : String
  captured : String
  gain : Int
  potential_loss : Option Int
  recapturers : List (String × String)
  our_defenders : Option (List (String × String))
  likely_net : Option Int
  safe : Bool
deriving DecidableEq, Repr

/-- Result dictionary of `analyze_move` (analyze_move.py), success case.
The Python keys `from`/`to` are embedded as `from_square`/`to_square`. -/
structure MoveReport where
  move : String
  piece : String
  from_square : String
  to_square : String
  capture : Option String
  destination_attacked_by : List (String × String)
  defenders_after_move : List (String × String)
  pieces_left_hanging : List (String × String)
  gives_check : Bool
  exchange_analysis : Option ExchangeAnalysis
  warnings : List String
deriving DecidableEq, Repr

/-- `analyze_move` returns either the error dictionary
`{'error': ...}` or the full analysis dictionary. -/
inductive AnalyzeMoveResult where
  | error (msg : String)
  | ok (report : MoveReport)
deriving DecidableEq, Repr

/-- Body of `analyze_move` (analyze_move.py) after the early error
return, parameterized by the simulated successor board so that the
heap-level embedding below can reuse it verbatim. -/
def moveReport (board after_board : Board) (from_sq to_sq : Square) (piece : Piece) :
    MoveReport :=
  let capture := board.get to_sq
  let color := piece.color
  let enemy_color := color.opposite
  let attackers := get_attackers board to_sq (some enemy_color)
  let defenders_after := get_defenders after_board to_sq
  let pieces_left_hanging : List (Square × Piece) :=
    board.pieces.filterMap fun e =>
      if e.2.color = color ∧ e.1 ≠ from_sq.index then
        let sq_obj : Square := ⟨e.1⟩
        let defenders_before := get_defenders board sq_obj
        if defenders_before.any (fun dd => dd.1.index = from_sq.index) then
          let defenders_now := get_defenders after_board sq_obj
          let enemies := get_attackers after_board sq_obj (some enemy_color)
          if enemies.length > 0 ∧ defenders_now.length = 0 then some (sq_obj, e.2)
          else none
        else none
      else none
  let is_check :=
    match after_board.find_king enemy_color with
    | some enemy_king_sq => is_attacked after_board enemy_king_sq color
    | none => false
  let exchange_analysis : Option ExchangeAnalysis :=
    match capture with
    | some cap =>
      let gain := AnalyzeMove.get_piece_value cap
      let recapturers := get_attackers after_board to_sq (some enemy_color)
      if recapturers.length ≠ 0 then
        -- the source also computes `lowest_recapturer = min(...)` here but never uses it
        let loss := AnalyzeMove.get_piece_value piece
        let net := if defenders_after.length < recapturers.length then gain - loss else gain
        some { capturing := piece.str
               captured := cap.str
               gain := gain
               potential_loss := some loss
               recapturers := fmtPieces recapturers
               our_defenders := some (fmtPieces defenders_after)
               likely_net := some (if recapturers.length > 0 then net else gain)
               safe := decide (defenders_after.length ≥ recapturers.length) }
      else
        some { capturing := piece.str
               captured := cap.str
               gain := gain
               potential_loss := none
               recapturers := []
               our_defenders := none
               likely_net := none
               safe := true }
    | none => none
  let warnings : List String :=
    (if attackers ≠ [] ∧ capture = none then
       if defenders_after = [] then
         ["⚠️ " ++ piece.str ++ " moves to " ++ to_sq.name ++
          " which is attacked and will be undefended!"]
       else if attackers.length > defenders_after.length then
         ["⚠️ " ++ to_sq.name ++ " has more attackers (" ++ toString attackers.length ++
          ") than defenders (" ++ toString defenders_after.length ++ ")"]
       else []
     else []) ++
    (match exchange_analysis with
     | some ea => if ea.safe = false then
         ["⚠️ Capture on " ++ to_sq.name ++ " may lose material (recapture possible)"]
       else []
     | none => []) ++
    (pieces_left_hanging.map fun sp =>
       "⚠️ " ++ sp.2.str ++ " on " ++ sp.1.name ++ " will be left hanging!") ++
    (match board.find_king color with
     | some our_king_sq =>
       let king_defenders_before := get_defenders board our_king_sq
       if king_defenders_before.any (fun dd => dd.1.index = from_sq.index) then
         let king_defenders_after := get_defenders after_board our_king_sq
         if king_defenders_after.length < king_defenders_before.length then
           ["⚠️ This move weakens king defense"]
         else []
       else []
     | none => [])
  { move := piece.str ++ from_sq.name ++ "-" ++ to_sq.name ++
      (match capture with | some cap => "x" ++ cap.str | none => "")
    piece := piece.str
    from_square := from_sq.name
    to_square := to_sq.name
    capture := capture.map Piece.str
    destination_attacked_by := fmtPieces attackers
    defenders_after_move := fmtPieces defenders_after
    pieces_left_hanging := fmtPieces pieces_left_hanging
    gives_check := is_check
    exchange_analysis := exchange_analysis
    warnings := warnings }

/-- `analyze_move` from analyze_move.py. -/
def analyze_move (board : Board) (from_sq to_sq : Square) : AnalyzeMoveResult :=
  match board.get from_sq with
  | none => .error ("No piece on " ++ from_sq.name)
  | some piece => .ok (moveReport board (simulate_move board from_sq to_sq) from_sq to_sq piece)

/-! ### Heap-level model of the `pieces` dictionaries

To state the frame property "`analyze_move` never mutates the caller's
board", the piece dictionaries live in an explicit heap of dict cells
addressed by allocation index, and a board holds a reference to its
cell.  `simulate_move`'s `board.pieces.copy()` allocates a fresh cell;
the subsequent `pop`/`[...]=` writes hit only that fresh cell. -/

/-- Store of Python dict objects; a reference is an index into it. -/
abbrev DictHeap := List (List (Nat × Piece))

/-- A `Board` whose `pieces` dict is a heap reference. -/
structure BoardRef where
  pieces : Nat
  turn : Color
  castling_rights : String
  en_passant : Option Square
  halfmove_clock : Nat
  fullmove_number : Nat
deriving DecidableEq, Repr

/-- Read a dict cell. -/
def heapRead (h : DictHeap) (r : Nat) : List (Nat × Piece) := h.getD r []

/-- Overwrite a dict cell in place. -/
def heapWrite (h : DictHeap) (r : Nat) (m : List (Nat × Piece)) : DictHeap := h.set r m

/-- Allocate a new dict object, returning its reference. -/
def heapAlloc (h : DictHeap) (m : List (Nat × Piece)) : DictHeap × Nat :=
  (h ++ [m], h.length)

/-- The plain `Board` value a `BoardRef` denotes in a heap. -/
def derefBoard (h : DictHeap) (b : BoardRef) : Board :=
  { pieces := heapRead h b.pieces
    turn := b.turn
    castling_rights := b.castling_rights
    en_passant := b.en_passant
    halfmove_clock := b.halfmove_clock
    fullmove_number := b.fullmove_number }

/-- Heap-level `simulate_move` (analyze_move.py): `.copy()` is an
allocation, `pop` and the `[to]=` assignment are writes to the fresh
cell. -/
def simulateMoveH (h : DictHeap) (board : BoardRef) (from_sq to_sq : Square) :
    DictHeap × BoardRef :=
  let alloc := heapAlloc h (heapRead h board.pieces)
  let h1 := alloc.1
  let r := alloc.2
  let popped := dictPop (heapRead h1 r) from_sq.index
  let h2 := heapWrite h1 r popped.1
  let h3 :=
    match popped.2 with
    | some piece => heapWrite h2 r (dictInsert (heapRead h2 r) to_sq.index piece)
    | none => h2
  (h3, { pieces := r
         turn := board.turn.opposite
         castling_rights := board.castling_rights
         en_passant := none
         halfmove_clock := board.halfmove_clock
         fullmove_number := board.fullmove_number })

/-- Heap-level `analyze_move` (analyze_move.py): only `simulate_move`
touches the heap; everything after it is read-only and is shared with
the plain embedding via `moveReport`. -/
def analyzeMoveH (h : DictHeap) (board : BoardRef) (from_sq to_sq : Square) :
    DictHeap × AnalyzeMoveResult :=
  match (derefBoard h board).get from_sq with
  | none => (h, .error ("No piece on " ++ from_sq.name))
  | some piece =>
    let sim := simulateMoveH h board from_sq to_sq
    (sim.1, .ok (moveReport (derefBoard h board) (derefBoard sim.1 sim.2) from_sq to_sq piece))

/-! ### Spec-level ray geometry

The specification talks about "the first occupied square along a ray"
in terms of step counts from the origin; these notions are defined
independently of the walking loops so that the loops can be proved
to realize them. -/

/-- `stepN s d k`: the square `k` steps from `s` in direction `d`, or
`none` if the walk leaves the board. -/
def stepN (s : Square) (d : Int × Int) : Nat → Option Square
  | 0 => some s
  | k + 1 => (stepN s d k).bind fun t => t.offset d.1 d.2

/-- `sq` (holding `p`) is the first occupied square along the ray from
`s` in direction `d`, sitting `j` steps out. -/
def FirstOccAt (board : Board) (s : Square) (d : Int × Int) (j : Nat)
    (sq : Square) (p : Piece) : Prop :=
  0 < j ∧ stepN s d j = some sq ∧ board.get sq = some p ∧
    ∀ k t, 0 < k → k < j → stepN s d k = some t → board.get t = none

/-- `sq` (holding `p`) is the second occupied square along the ray from
`s` in direction `d`: it sits `j` steps out, strictly beyond the first
occupant at `i` steps, with nothing in between. -/
def SecondOccAt (board : Board) (s : Square) (d : Int × Int) (i j : Nat)
    (sq : Square) (p : Piece) : Prop :=
  i < j ∧ stepN s d j = some sq ∧ board.get sq = some p ∧
    ∀ k t, i < k → k < j → stepN s d k = some t → board.get t = none

/-- `b` lies strictly between `target` and `a` on one of the 8 ray
directions. -/
def StrictlyBetween (target a b : Square) : Prop :=
  ∃ d ∈ QUEEN_DIRECTIONS, ∃ k m : Nat,
    stepN target d k = some b ∧ stepN target d m = some a ∧ 0 < k ∧ k < m

/-- The ray direction `d` is geometrically compatible with slider type
`ty`: diagonal rays carry bishops/queens, orthogonal rays rooks/queens. -/
def RayCompatible (d : Int × Int) (ty : PieceType) : Prop :=
  (d ∈ BISHOP_DIRECTIONS ∧ ty ∈ [PieceType.BISHOP, PieceType.QUEEN]) ∨
  (d ∈ ROOK_DIRECTIONS ∧ ty ∈ [PieceType.ROOK, PieceType.QUEEN])

/-- Spec-side description of a sliding attack on `target`: the attacker
is the first occupant of a compatible ray and passes the color filter. -/
def SlidingAttack (board : Board) (target : Square) (by_color : Option Color)
    (a : Square) (p : Piece) : Prop :=
  (by_color = none ∨ by_color = some p.color) ∧
    ∃ d j, RayCompatible d p.piece_type ∧ FirstOccAt board target d j a p

/-- Spec-side description of a pin record for `find_pins`: walking ray
`d` outward from a friendly King/Queen/Rook, the first occupied square
holds a friendly piece and the second an enemy slider compatible with
the ray; the record fields (including `is_absolute` exactly for the
King and the diagonal/orthogonal tag) are determined by the pieces
found. -/
def PinSpec (board : Board) (color : Color) (r : Tactics.PinRecord) : Prop :=
  ∃ psq pp fsq fp ssq sp d i j,
    (psq, pp) ∈ board.get_pieces_by_color color ∧
    pp.piece_type ∈ [PieceType.KING, PieceType.QUEEN, PieceType.ROOK] ∧
    d ∈ BISHOP_DIRECTIONS ++ ROOK_DIRECTIONS ∧
    FirstOccAt board psq d i fsq fp ∧
    SecondOccAt board psq d i j ssq sp ∧
    fp.color = color ∧ sp.color = color.opposite ∧
    (if d.1.natAbs = d.2.natAbs then sp.piece_type ∈ [PieceType.BISHOP, PieceType.QUEEN]
     else sp.piece_type ∈ [PieceType.ROOK, PieceType.QUEEN]) ∧
    r = { pinned_piece := fp.str
          pinned_square := fsq.name
          pinned_value := Tactics.get_piece_value fp
          pinning_piece := sp.str
          pinning_square := ssq.name
          protected_piece := pp.str
          protected_square := psq.name
          protected_value := Tactics.get_piece_value pp
          pin_type := if d.1.natAbs = d.2.natAbs then "diagonal" else "orthogonal"
          is_absolute := decide (pp.piece_type = PieceType.KING) }

/-! ### Geometry lemmas -/

lemma Square.file_lt (s : Square) : s.file < 8 := Nat.mod_lt _ (by norm_num)

lemma Square.rank_lt {s : Square} (h : s.index < 64) : s.rank < 8 := by
  unfold Square.rank; omega

lemma Square.offset_spec {s t : Square} {fd rd : Int} (h : s.offset fd rd = some t) :
    (t.file : Int) = (s.file : Int) + fd ∧ (t.rank : Int) = (s.rank : Int) + rd ∧
      t.index < 64 := by
  simp only [Square.offset] at h
  split_ifs at h with hc
  injection h with h'
  subst h'
  simp only [Square.file, Square.rank] at hc ⊢
  refine ⟨?_, ?_, ?_⟩ <;> omega

lemma Square.offset_inv {s t : Square} {fd rd : Int} (hs : s.index < 64)
    (h : s.offset fd rd = some t) : t.offset (-fd) (-rd) = some s := by
  obtain ⟨hf, hr, ht⟩ := Square.offset_spec h
  simp only [Square.file, Square.rank] at hf hr
  simp only [Square.offset, Square.file, Square.rank]
  rw [if_pos (by omega)]
  simp only [Option.some.injEq]
  have hmk : ∀ n : Nat, n = s.index → (⟨n⟩ : Square) = s := by
    intro n hn; cases s; simpa using hn
  apply hmk
  omega

lemma stepN_succ_left (s : Square) (d : Int × Int) (k : Nat) :
    stepN s d (k + 1) = (s.offset d.1 d.2).bind (fun t => stepN t d k) := by
  induction k with
  | zero =>
    show (stepN s d 0).bind _ = _
    cases h : s.offset d.1 d.2 <;> simp [stepN, h]
  | succ k ih =>
    show (stepN s d (k + 1)).bind _ = _
    rw [ih]
    cases h : s.offset d.1 d.2 with
    | none => simp
    | some u => simp [stepN]

lemma stepN_add (s u : Square) (d : Int × Int) (i n : Nat)
    (h : stepN s d i = some u) : stepN s d (i + n) = stepN u d n := by
  induction n with
  | zero => simpa [stepN] using h
  | succ n ih =>
    have : i + (n + 1) = (i + n) + 1 := by omega
    rw [this]
    show (stepN s d (i + n)).bind _ = (stepN u d n).bind _
    rw [ih]

lemma stepN_coords {s t : Square} {d : Int × Int} {k : Nat} (h : stepN s d k = some t) :
    (t.file : Int) = (s.file : Int) + k * d.1 ∧
      (t.rank : Int) = (s.rank : Int) + k * d.2 := by
  induction k generalizing t with
  | zero =>
    simp [stepN] at h
    subst h
    simp
  | succ k ih =>
    rw [show k + 1 = k + 1 from rfl, stepN] at h
    rw [Option.bind_eq_some] at h
    obtain ⟨u, hu, hoff⟩ := h
    obtain ⟨ihf, ihr⟩ := ih hu
    obtain ⟨hf, hr, _⟩ := Square.offset_spec hoff
    constructor
    · rw [hf, ihf]; push_cast; ring
    · rw [hr, ihr]; push_cast; ring

lemma stepN_valid {s t : Square} {d : Int × Int} {k : Nat} (hs : s.index < 64)
    (h : stepN s d k = some t) : t.index < 64 := by
  cases k with
  | zero => simp [stepN] at h; subst h; exact hs
  | succ k =>
    rw [stepN, Option.bind_eq_some] at h
    obtain ⟨u, _, hoff⟩ := h
    exact (Square.offset_spec hoff).2.2

lemma stepN_isSome_of_le {s t : Square} {d : Int × Int} {k : Nat}
    (h : stepN s d k = some t) : ∀ m ≤ k, ∃ u, stepN s d m = some u := by
  intro m hm
  induction k generalizing t with
  | zero =>
    have : m = 0 := by omega
    exact ⟨s, by simp [this, stepN]⟩
  | succ k ih =>
    rw [stepN, Option.bind_eq_some] at h
    obtain ⟨u, hu, _⟩ := h
    rcases Nat.lt_or_ge m (k + 1) with hlt | hge
    · exact ih hu (by omega)
    · have : m = k + 1 := by omega
      subst this
      exact ⟨t, by rw [stepN, hu]; simpa⟩

lemma stepN_le8 {s t : Square} {d : Int × Int} (hd : d ∈ QUEEN_DIRECTIONS) {k : Nat}
    (h : stepN s d k = some t) : k ≤ 8 := by
  cases k with
  | zero => omega
  | succ k =>
    rw [stepN_succ_left, Option.bind_eq_some] at h
    obtain ⟨s1, hoff, hwalk⟩ := h
    have hs1 : s1.index < 64 := (Square.offset_spec hoff).2.2
    have ht : t.index < 64 := stepN_valid hs1 hwalk
    obtain ⟨cf, cr⟩ := stepN_coords hwalk
    have h1 : s1.file < 8 := s1.file_lt
    have h2 : t.file < 8 := t.file_lt
    have h3 : s1.rank < 8 := Square.rank_lt hs1
    have h4 : t.rank < 8 := Square.rank_lt ht
    fin_cases hd <;> simp only at cf cr <;> omega

lemma stepN_unique {s a : Square} {d d' : Int × Int} {m m' : Nat}
    (hd : d ∈ QUEEN_DIRECTIONS) (hd' : d' ∈ QUEEN_DIRECTIONS)
    (hm : 0 < m) (hm' : 0 < m')
    (h : stepN s d m = some a) (h' : stepN s d' m' = some a) : d = d' ∧ m = m' := by
  obtain ⟨cf, cr⟩ := stepN_coords h
  obtain ⟨cf', cr'⟩ := stepN_coords h'
  fin_cases hd <;> fin_cases hd' <;> simp only at cf cr cf' cr' <;>
    first
      | exact ⟨rfl, by omega⟩
      | exact absurd rfl (by omega : ¬ (0 : Int) = 0)

/-! ### Walk characterizations -/

lemma firstOccWalk_iff (board : Board) (d : Int × Int) :
    ∀ (n : Nat) (s sq : Square) (p : Piece),
      firstOccWalk board d s n = some (sq, p) ↔
        ∃ j, 0 < j ∧ j ≤ n ∧ stepN s d j = some sq ∧ board.get sq = some p ∧
          ∀ k t, 0 < k → k < j → stepN s d k = some t → board.get t = none := by
  intro n
  induction n with
  | zero =>
    intro s sq p
    simp only [firstOccWalk]
    constructor
    · intro h; cases h
    · rintro ⟨j, hj, hle, -⟩; omega
  | succ n ih =>
    intro s sq p
    cases ho : s.offset d.1 d.2 with
    | none =>
      simp only [firstOccWalk, ho]
      constructor
      · intro h; cases h
      · rintro ⟨j, hj, hle, hstep, -, -⟩
        exfalso
        obtain ⟨j', rfl⟩ : ∃ j', j = j' + 1 := ⟨j - 1, by omega⟩
        rw [stepN_succ_left, ho] at hstep
        cases hstep
    | some next =>
      have h1 : stepN s d 1 = some next := by
        rw [stepN_succ_left, ho]; simp [stepN]
      cases hg : board.get next with
      | some piece =>
        simp only [firstOccWalk, ho, hg, Option.some.injEq, Prod.mk.injEq]
        constructor
        · rintro ⟨rfl, rfl⟩
          exact ⟨1, by omega, by omega, h1, hg,
            fun k t hk hkj _ => absurd hkj (by omega)⟩
        · rintro ⟨j, hj, hle, hstep, hget, hmin⟩
          rcases Nat.lt_or_ge 1 j with hlt | hge
          · have := hmin 1 next (by omega) hlt h1
            rw [hg] at this
            cases this
          · have hj1 : j = 1 := by omega
            subst hj1
            rw [h1] at hstep
            injection hstep with hstep
            subst hstep
            rw [hg] at hget
            injection hget with hget
            exact ⟨rfl, hget⟩
      | none =>
        simp only [firstOccWalk, ho, hg]
        rw [ih next sq p]
        constructor
        · rintro ⟨j, hj, hle, hstep, hget, hmin⟩
          refine ⟨j + 1, by omega, by omega, ?_, hget, ?_⟩
          · rw [stepN_succ_left, ho]; simpa using hstep
          · intro k t hk hkj hkstep
            cases k with
            | zero => omega
            | succ k' =>
              cases k' with
              | zero =>
                rw [h1] at hkstep
                injection hkstep with hkstep
                subst hkstep
                exact hg
              | succ k'' =>
                rw [stepN_succ_left, ho] at hkstep
                simp only [Option.bind] at hkstep
                exact hmin (k'' + 1) t (by omega) (by omega) hkstep
        · rintro ⟨j, hj, hle, hstep, hget, hmin⟩
          obtain ⟨j', rfl⟩ : ∃ j', j = j' + 1 := ⟨j - 1, by omega⟩
          have hj' : 0 < j' := by
            rcases Nat.eq_zero_or_pos j' with h0 | h0
            · subst h0
              rw [h1] at hstep
              injection hstep with hstep
              subst hstep
              rw [hg] at hget
              cases hget
            · exact h0
          refine ⟨j', hj', by omega, ?_, hget, ?_⟩
          · rw [stepN_succ_left, ho] at hstep
            simpa using hstep
          · intro k t hk hkj hkstep
            refine hmin (k + 1) t (by omega) (by omega) ?_
            rw [stepN_succ_left, ho]
            simpa using hkstep

lemma firstOccWalk16_iff {board : Board} {d : Int × Int} {s sq : Square} {p : Piece}
    (hd : d ∈ QUEEN_DIRECTIONS) :
    firstOccWalk board d s 16 = some (sq, p) ↔ ∃ j, FirstOccAt board s d j sq p := by
  rw [firstOccWalk_iff]
  unfold FirstOccAt
  constructor
  · rintro ⟨j, hj, -, hstep, hget, hmin⟩
    exact ⟨j, hj, hstep, hget, hmin⟩
  · rintro ⟨j, hj, hstep, hget, hmin⟩
    exact ⟨j, hj, by have := stepN_le8 hd hstep; omega, hstep, hget, hmin⟩

lemma mem_attackRay_iff (board : Board) (d : Int × Int) :
    ∀ (n : Nat) (s B : Square),
      B ∈ attackRay board d s n ↔
        ∃ k, 0 < k ∧ k ≤ n ∧ stepN s d k = some B ∧
          ∀ j t, 0 < j → j < k → stepN s d j = some t → board.get t = none := by
  intro n
  induction n with
  | zero =>
    intro s B
    simp only [attackRay, List.not_mem_nil, false_iff, not_exists]
    rintro k ⟨hk, hle, -⟩
    omega
  | succ n ih =>
    intro s B
    cases ho : s.offset d.1 d.2 with
    | none =>
      simp only [attackRay, ho, List.not_mem_nil, false_iff, not_exists]
      rintro k ⟨hk, hle, hstep, -⟩
      obtain ⟨k', rfl⟩ : ∃ k', k = k' + 1 := ⟨k - 1, by omega⟩
      rw [stepN_succ_left, ho] at hstep
      cases hstep
    | some next =>
      have h1 : stepN s d 1 = some next := by
        rw [stepN_succ_left, ho]; simp [stepN]
      cases hg : board.get next with
      | some piece =>
        simp only [attackRay, ho, hg, List.mem_singleton]
        constructor
        · rintro rfl
          exact ⟨1, by omega, by omega, h1,
            fun j t hj hjk _ => absurd hjk (by omega)⟩
        · rintro ⟨k, hk, hle, hstep, hmin⟩
          rcases Nat.lt_or_ge 1 k with hlt | hge
          · have := hmin 1 next (by omega) hlt h1
            rw [hg] at this
            cases this
          · have hk1 : k = 1 := by omega
            subst hk1
            rw [h1] at hstep
            injection hstep with hstep
            exact hstep.symm
      | none =>
        simp only [attackRay, ho, hg, List.mem_cons]
        rw [ih next B]
        constructor
        · rintro (rfl | ⟨k, hk, hle, hstep, hmin⟩)
          · exact ⟨1, by omega, by omega, h1,
              fun j t hj hjk _ => absurd hjk (by omega)⟩
          · refine ⟨k + 1, by omega, by omega, ?_, ?_⟩
            · rw [stepN_succ_left, ho]; simpa using hstep
            · intro j t hj hjk hjstep
              cases j with
              | zero => omega
              | succ j' =>
                cases j' with
                | zero =>
                  rw [h1] at hjstep
                  injection hjstep with hjstep
                  subst hjstep
                  exact hg
                | succ j'' =>
                  rw [stepN_succ_left, ho] at hjstep
                  simp only [Option.bind] at hjstep
                  exact hmin (j'' + 1) t (by omega) (by omega) hjstep
        · rintro ⟨k, hk, hle, hstep, hmin⟩
          obtain ⟨k', rfl⟩ : ∃ k', k = k' + 1 := ⟨k - 1, by omega⟩
          rcases Nat.eq_zero_or_pos k' with h0 | h0
          · subst h0
            rw [h1] at hstep
            injection hstep with hstep
            exact Or.inl hstep.symm
          · refine Or.inr ⟨k', h0, by omega, ?_, ?_⟩
            · rw [stepN_succ_left, ho] at hstep
              simpa using hstep
            · intro j t hj hjk hjstep
              refine hmin (j + 1) t (by omega) (by omega) ?_
              rw [stepN_succ_left, ho]
              simpa using hjstep

lemma mem_attackRay16_iff {board : Board} {d : Int × Int} {s B : Square}
    (hd : d ∈ QUEEN_DIRECTIONS) :
    B ∈ attackRay board d s 16 ↔
      ∃ k, 0 < k ∧ stepN s d k = some B ∧
        ∀ j t, 0 < j → j < k → stepN s d j = some t → board.get t = none := by
  rw [mem_attackRay_iff]
  constructor
  · rintro ⟨k, hk, -, hstep, hmin⟩
    exact ⟨k, hk, hstep, hmin⟩
  · rintro ⟨k, hk, hstep, hmin⟩
    exact ⟨k, hk, by have := stepN_le8 hd hstep; omega, hstep, hmin⟩

lemma stepN_rev {A B : Square} {d : Int × Int} {k : Nat} (hA : A.index < 64)
    (h : stepN A d k = some B) :
    ∀ j, j ≤ k → stepN B (-d.1, -d.2) j = stepN A d (k - j) := by
  intro j hj
  induction j with
  | zero => simpa [stepN] using h.symm
  | succ j ih =>
    have hij := ih (by omega)
    have hu : ∃ u, stepN A d (k - j) = some u := stepN_isSome_of_le h (k - j) (by omega)
    obtain ⟨u, hu⟩ := hu
    have hw : ∃ w, stepN A d (k - (j + 1)) = some w :=
      stepN_isSome_of_le h (k - (j + 1)) (by omega)
    obtain ⟨w, hw⟩ := hw
    have hsplit : k - j = (k - (j + 1)) + 1 := by omega
    have hwu : w.offset d.1 d.2 = some u := by
      have hstep : stepN A d (k - j) = (stepN A d (k - (j + 1))).bind
          (fun t => t.offset d.1 d.2) := by
        rw [hsplit]; rfl
      rw [hu, hw] at hstep
      simpa using hstep.symm
    have hwvalid : w.index < 64 := stepN_valid hA hw
    have hback : u.offset (-d.1) (-d.2) = some w := Square.offset_inv hwvalid hwu
    show (stepN B (-d.1, -d.2) j).bind _ = _
    rw [hij, hu]
    show u.offset (-d.1) (-d.2) = stepN A d (k - (j + 1))
    rw [hback, hw]

/-! ### Dictionary lemmas -/

lemma dictGet_eq_none_of_not_mem {m : List (Nat × Piece)} {k : Nat}
    (h : k ∉ m.map Prod.fst) : dictGet m k = none := by
  induction m with
  | nil => rfl
  | cons e rest ih =>
    simp only [List.map_cons, List.mem_cons, not_or] at h
    rw [dictGet, if_neg (fun he => h.1 he.symm)]
    exact ih h.2

lemma dictGet_any {m : List (Nat × Piece)} {k : Nat} :
    m.any (fun e => e.1 = k) = true ↔ dictGet m k ≠ none := by
  induction m with
  | nil => simp [dictGet]
  | cons e rest ih =>
    by_cases he : e.1 = k
    · simp [dictGet, he]
    · simp only [List.any_cons, dictGet, if_neg he, Bool.or_eq_true, decide_eq_true_eq]
      constructor
      · rintro (h | h)
        · exact absurd h he
        · exact ih.mp h
      · intro h
        exact Or.inr (ih.mpr h)

lemma dictInsert_get_self (m : List (Nat × Piece)) (k : Nat) (v : Piece) :
    dictGet (dictInsert m k v) k = some v := by
  unfold dictInsert
  split_ifs with hany
  · induction m with
    | nil => simp at hany
    | cons e rest ih =>
      by_cases he : e.1 = k
      · simp [List.map_cons, if_pos he, dictGet]
      · simp only [List.any_cons, Bool.or_eq_true, decide_eq_true_eq] at hany
        rcases hany with h | h
        · exact absurd h he
        · simp only [List.map_cons, if_neg he, dictGet, if_neg he]
          exact ih h
  · induction m with
    | nil => simp [dictGet]
    | cons e rest ih =>
      simp only [List.any_cons, Bool.or_eq_true, decide_eq_true_eq, not_or] at hany
      simp only [List.cons_append, dictGet, if_neg hany.1]
      exact ih hany.2

lemma dictInsert_get_ne (m : List (Nat × Piece)) (k : Nat) (v : Piece) (j : Nat)
    (hne : j ≠ k) : dictGet (dictInsert m k v) j = dictGet m j := by
  have hkj : ¬ ((k : Nat) = j) := fun h => hne h.symm
  unfold dictInsert
  split_ifs with hany
  · clear hany
    induction m with
    | nil => rfl
    | cons e rest ih =>
      by_cases he : e.1 = k
      · have hej : ¬ (e.1 = j) := by rw [he]; exact hkj
        simp only [List.map_cons, if_pos he, dictGet, if_neg hkj, if_neg hej]
        exact ih
      · simp only [List.map_cons, if_neg he]
        by_cases hej : e.1 = j
        · simp only [dictGet, if_pos hej]
        · simp only [dictGet, if_neg hej]
          exact ih
  · clear hany
    induction m with
    | nil =>
      simp only [List.nil_append, dictGet, if_neg hkj]
    | cons e rest ih =>
      by_cases hej : e.1 = j
      · simp only [List.cons_append, dictGet, if_pos hej]
      · simp only [List.cons_append, dictGet, if_neg hej] at ih ⊢
        exact ih

lemma dictInsert_length (m : List (Nat × Piece)) (k : Nat) (v : Piece) :
    (dictInsert m k v).length =
      if m.any (fun e => e.1 = k) then m.length else m.length + 1 := by
  unfold dictInsert
  split_ifs <;> simp

lemma dictPop_get_some {m : List (Nat × Piece)} {k : Nat} {v : Piece}
    (h : dictGet m k = some v) :
    (dictPop m k).2 = some v ∧ (dictPop m k).1.length + 1 = m.length := by
  induction m with
  | nil => cases h
  | cons e rest ih =>
    by_cases he : e.1 = k
    · rw [dictGet, if_pos he] at h
      simp only [dictPop, if_pos he]
      exact ⟨h, by simp⟩
    · rw [dictGet, if_neg he] at h
      obtain ⟨h1, h2⟩ := ih h
      simp only [dictPop, if_neg he]
      exact ⟨h1, by simp; omega⟩

lemma dictPop_get_none {m : List (Nat × Piece)} {k : Nat}
    (h : dictGet m k = none) : dictPop m k = (m, none) := by
  induction m with
  | nil => rfl
  | cons e rest ih =>
    by_cases he : e.1 = k
    · rw [dictGet, if_pos he] at h
      cases h
    · rw [dictGet, if_neg he] at h
      simp only [dictPop, if_neg he, ih h]

lemma dictPop_get_ne (m : List (Nat × Piece)) (k j : Nat) (hne : j ≠ k) :
    dictGet (dictPop m k).1 j = dictGet m j := by
  induction m with
  | nil => rfl
  | cons e rest ih =>
    by_cases he : e.1 = k
    · have hej : ¬ (e.1 = j) := by rw [he]; exact fun h => hne h.symm
      simp only [dictPop, if_pos he, dictGet, if_neg hej]
    · simp only [dictPop, if_neg he]
      by_cases hej : e.1 = j
      · simp only [dictGet, if_pos hej]
      · simp only [dictGet, if_neg hej]
        exact ih

lemma dictPop_get_self_of_good {m : List (Nat × Piece)} {k : Nat} (hg : goodKeys m) :
    dictGet (dictPop m k).1 k = none := by
  induction m with
  | nil => rfl
  | cons e rest ih =>
    unfold goodKeys at hg
    simp only [List.map_cons, List.nodup_cons] at hg
    by_cases he : e.1 = k
    · simp only [dictPop, if_pos he]
      exact dictGet_eq_none_of_not_mem (he ▸ hg.1)
    · simp only [dictPop, if_neg he, dictGet, if_neg he]
      exact ih hg.2

/-! ### Offset-table closure under negation -/

lemma neg_mem_knight {o : Int × Int} (h : o ∈ KNIGHT_OFFSETS) :
    (-o.1, -o.2) ∈ KNIGHT_OFFSETS := by
  fin_cases h <;> decide

lemma neg_mem_king {o : Int × Int} (h : o ∈ KING_OFFSETS) :
    (-o.1, -o.2) ∈ KING_OFFSETS := by
  fin_cases h <;> decide

lemma neg_mem_bishopDirs {o : Int × Int} (h : o ∈ BISHOP_DIRECTIONS) :
    (-o.1, -o.2) ∈ BISHOP_DIRECTIONS := by
  fin_cases h <;> decide

lemma neg_mem_rookDirs {o : Int × Int} (h : o ∈ ROOK_DIRECTIONS) :
    (-o.1, -o.2) ∈ ROOK_DIRECTIONS := by
  fin_cases h <;> decide

/-! ### Membership in the attacker probes -/

lemma mem_knightAttackers_iff {board : Board} {target : Square} {by_color : Option Color}
    {A : Square} {P : Piece} :
    (A, P) ∈ knightAttackers board target by_color ↔
      ∃ o ∈ KNIGHT_OFFSETS, target.offset o.1 o.2 = some A ∧ board.get A = some P ∧
        P.piece_type = PieceType.KNIGHT ∧ (by_color = none ∨ by_color = some P.color) := by
  unfold knightAttackers
  rw [List.mem_filterMap]
  constructor
  · rintro ⟨o, ho, h⟩
    cases hoff : target.offset o.1 o.2 with
    | none => rw [hoff] at h; cases h
    | some asq =>
      simp only [hoff] at h
      cases hget : board.get asq with
      | none => simp only [hget] at h; cases h
      | some piece =>
        simp only [hget] at h
        by_cases hcond : piece.piece_type = PieceType.KNIGHT ∧
            (by_color = none ∨ by_color = some piece.color)
        · rw [if_pos hcond] at h
          injection h with h'
          obtain ⟨h1, h2⟩ := Prod.mk.injEq _ _ _ _ |>.mp h'
          subst h1
          subst h2
          exact ⟨o, ho, hoff, hget, hcond.1, hcond.2⟩
        · rw [if_neg hcond] at h
          cases h
  · rintro ⟨o, ho, hoff, hget, hty, hcol⟩
    refine ⟨o, ho, ?_⟩
    simp only [hoff, hget]
    rw [if_pos ⟨hty, hcol⟩]

lemma mem_kingAttackers_iff {board : Board} {target : Square} {by_color : Option Color}
    {A : Square} {P : Piece} :
    (A, P) ∈ kingAttackers board target by_color ↔
      ∃ o ∈ KING_OFFSETS, target.offset o.1 o.2 = some A ∧ board.get A = some P ∧
        P.piece_type = PieceType.KING ∧ (by_color = none ∨ by_color = some P.color) := by
  unfold kingAttackers
  rw [List.mem_filterMap]
  constructor
  · rintro ⟨o, ho, h⟩
    cases hoff : target.offset o.1 o.2 with
    | none => rw [hoff] at h; cases h
    | some asq =>
      simp only [hoff] at h
      cases hget : board.get asq with
      | none => simp only [hget] at h; cases h
      | some piece =>
        simp only [hget] at h
        by_cases hcond : piece.piece_type = PieceType.KING ∧
            (by_color = none ∨ by_color = some piece.color)
        · rw [if_pos hcond] at h
          injection h with h'
          obtain ⟨h1, h2⟩ := Prod.mk.injEq _ _ _ _ |>.mp h'
          subst h1
          subst h2
          exact ⟨o, ho, hoff, hget, hcond.1, hcond.2⟩
        · rw [if_neg hcond] at h
          cases h
  · rintro ⟨o, ho, hoff, hget, hty, hcol⟩
    refine ⟨o, ho, ?_⟩
    simp only [hoff, hget]
    rw [if_pos ⟨hty, hcol⟩]

lemma mem_pawnAttackers_iff {board : Board} {target : Square} {by_color : Option Color}
    {A : Square} {P : Piece} :
    (A, P) ∈ pawnAttackers board target by_color ↔
      ∃ cd ∈ [(Color.WHITE, (-1 : Int)), (Color.BLACK, (1 : Int))],
        ¬(by_color ≠ none ∧ by_color ≠ some cd.1) ∧
        ∃ fd ∈ [(-1 : Int), 1], target.offset fd cd.2 = some A ∧ board.get A = some P ∧
          P.piece_type = PieceType.PAWN ∧ P.color = cd.1 := by
  unfold pawnAttackers
  rw [List.mem_flatMap]
  constructor
  · rintro ⟨cd, hcd, h⟩
    split_ifs at h with hskip
    · cases h
    · rw [List.mem_filterMap] at h
      obtain ⟨fd, hfd, h⟩ := h
      cases hoff : target.offset fd cd.2 with
      | none => rw [hoff] at h; cases h
      | some asq =>
        simp only [hoff] at h
        cases hget : board.get asq with
        | none => simp only [hget] at h; cases h
        | some piece =>
          simp only [hget] at h
          by_cases hcond : piece.piece_type = PieceType.PAWN ∧ piece.color = cd.1
          · rw [if_pos hcond] at h
            injection h with h'
            obtain ⟨h1, h2⟩ := Prod.mk.injEq _ _ _ _ |>.mp h'
            subst h1
            subst h2
            exact ⟨cd, hcd, hskip, fd, hfd, hoff, hget, hcond.1, hcond.2⟩
          · rw [if_neg hcond] at h
            cases h
  · rintro ⟨cd, hcd, hskip, fd, hfd, hoff, hget, hty, hcol⟩
    refine ⟨cd, hcd, ?_⟩
    rw [if_neg hskip, List.mem_filterMap]
    refine ⟨fd, hfd, ?_⟩
    simp only [hoff, hget]
    rw [if_pos ⟨hty, hcol⟩]

lemma mem_check_sliding_iff {board : Board} {target : Square} {by_color : Option Color}
    {dirs : List (Int × Int)} {vt : List PieceType} {A : Square} {P : Piece}
    (hdirs : ∀ d ∈ dirs, d ∈ QUEEN_DIRECTIONS) :
    (A, P) ∈ check_sliding board target by_color dirs vt ↔
      ∃ d ∈ dirs, P.piece_type ∈ vt ∧ (by_color = none ∨ by_color = some P.color) ∧
        ∃ j, FirstOccAt board target d j A P := by
  unfold check_sliding
  rw [List.mem_flatMap]
  constructor
  · rintro ⟨d, hd, h⟩
    cases hw : firstOccWalk board d target 16 with
    | none => rw [hw] at h; cases h
    | some sp =>
      obtain ⟨sq0, piece0⟩ := sp
      simp only [hw] at h
      by_cases hcond : piece0.piece_type ∈ vt ∧ (by_color = none ∨ by_color = some piece0.color)
      · rw [if_pos hcond, List.mem_singleton] at h
        obtain ⟨h1, h2⟩ := Prod.mk.injEq _ _ _ _ |>.mp h
        subst h1
        subst h2
        exact ⟨d, hd, hcond.1, hcond.2, (firstOccWalk16_iff (hdirs d hd)).mp hw⟩
      · rw [if_neg hcond] at h
        cases h
  · rintro ⟨d, hd, hty, hcol, hocc⟩
    refine ⟨d, hd, ?_⟩
    rw [(firstOccWalk16_iff (hdirs d hd)).mpr hocc]
    show (A, P) ∈ (if P.piece_type ∈ vt ∧ (by_color = none ∨ by_color = some P.color)
      then [(A, P)] else [])
    rw [if_pos ⟨hty, hcol⟩]
    exact List.mem_singleton.mpr rfl

/-- The five probes of `get_attackers`, as a disjunction. -/
lemma mem_get_attackers_iff {board : Board} {target : Square} {by_color : Option Color}
    {A : Square} {P : Piece} :
    (A, P) ∈ get_attackers board target by_color ↔
      (A, P) ∈ knightAttackers board target by_color ∨
      (A, P) ∈ kingAttackers board target by_color ∨
      (A, P) ∈ pawnAttackers board target by_color ∨
      (A, P) ∈ check_sliding board target by_color BISHOP_DIRECTIONS
        [PieceType.BISHOP, PieceType.QUEEN] ∨
      (A, P) ∈ check_sliding board target by_color ROOK_DIRECTIONS
        [PieceType.ROOK, PieceType.QUEEN] := by
  unfold get_attackers
  simp [List.mem_append, or_assoc]

/-! ### Claim theorems -/

/-- C2: for every board and square S, `is_hanging` returns False if S is
empty, and otherwise returns True iff the number of attackers of the
occupant's opposite color is positive and the number of defenders
(same-color attackers of S) is zero. -/
theorem is_hanging_spec (board : Board) (target : Square) :
    (board.get target = none → is_hanging board target = false) ∧
    ∀ p, board.get target = some p →
      (is_hanging board target = true ↔
        0 < (get_attackers board target (some p.color.opposite)).length ∧
        (get_attackers board target (some p.color)).length = 0) := by
  constructor
  · intro h
    simp only [is_hanging, h]
  · intro p hp
    simp only [is_hanging, hp, get_defenders, decide_eq_true_eq]

/-- C2 witness: on the post-1.e4 e5 2.Nf3 position, the Black pawn on e5
is hanging: one White attacker, no defenders. -/
theorem is_hanging_spec_witness :
    (fenBoard "rnbqkbnr/pppp1ppp/8/4p3/4P3/5N2/PPPP1PPP/RNBQKB1R b KQkq - 1 2").get ⟨36⟩
        = some ⟨PieceType.PAWN, Color.BLACK⟩ ∧
    is_hanging (fenBoard "rnbqkbnr/pppp1ppp/8/4p3/4P3/5N2/PPPP1PPP/RNBQKB1R b KQkq - 1 2")
      ⟨36⟩ = true := by
  have hget : (fenBoard
      "rnbqkbnr/pppp1ppp/8/4p3/4P3/5N2/PPPP1PPP/RNBQKB1R b KQkq - 1 2").get ⟨36⟩
      = some ⟨PieceType.PAWN, Color.BLACK⟩ := by decide
  refine ⟨hget, ?_⟩
  exact ((is_hanging_spec _ ⟨36⟩).2 ⟨PieceType.PAWN, Color.BLACK⟩ hget).mpr
    ⟨by decide, by decide⟩

/-- C9: `is_protected` is True on an empty square, and otherwise True
iff the defender count is at least the opposite-color attacker count; a
pure count comparison. -/
theorem is_protected_spec (board : Board) (target : Square) :
    (board.get target = none → is_protected board target = true) ∧
    ∀ p, board.get target = some p →
      (is_protected board target = true ↔
        (get_defenders board target).length ≥
          (get_attackers board target (some p.color.opposite)).length) := by
  constructor
  · intro h
    simp only [is_protected, h]
  · intro p hp
    simp only [is_protected, hp, decide_eq_true_eq]

/-- C9 witness: in the starting position the pawn on e2 is protected,
via the theorem's count characterization. -/
theorem is_protected_spec_witness :
    is_protected (fenBoard "rnbqkbnr/pppppppp/8/8/8/8/PPPPPPPP/RNBQKBNR w KQkq - 0 1")
      ⟨12⟩ = true := by
  have hget : (fenBoard "rnbqkbnr/pppppppp/8/8/8/8/PPPPPPPP/RNBQKBNR w KQkq - 0 1").get ⟨12⟩
      = some ⟨PieceType.PAWN, Color.WHITE⟩ := by decide
  exact ((is_protected_spec _ _).2 ⟨PieceType.PAWN, Color.WHITE⟩ hget).mpr (by decide)

/-- C10: the `is_hanging`/`is_protected` fields of `analyze_square`
coincide with the standalone classifier functions on every board and
square (in particular an empty square is reported not hanging and
protected). -/
theorem analyze_square_consistent (board : Board) (target : Square) :
    (analyze_square board target).is_hanging = is_hanging board target ∧
    (analyze_square board target).is_protected = is_protected board target := by
  cases hp : board.get target with
  | none => simp [analyze_square, is_hanging, is_protected, hp]
  | some p =>
    cases hc : p.color <;>
      simp [analyze_square, is_hanging, is_protected, hp, hc, Color.opposite, get_defenders]

/-- C7: `analyze_move` returns an error result when the source square is
empty and a full report otherwise; the error constructor carries only a
message, none of the analysis fields. -/
theorem analyze_move_error_spec (board : Board) (from_sq to_sq : Square) :
    (board.get from_sq = none →
      ∃ msg, analyze_move board from_sq to_sq = .error msg) ∧
    (board.get from_sq ≠ none →
      ∃ r, analyze_move board from_sq to_sq = .ok r) := by
  constructor
  · intro h
    refine ⟨"No piece on " ++ from_sq.name, ?_⟩
    simp [analyze_move, h]
  · intro h
    obtain ⟨p, hp⟩ := Option.ne_none_iff_exists'.mp h
    refine ⟨moveReport board (simulate_move board from_sq to_sq) from_sq to_sq p, ?_⟩
    simp [analyze_move, hp]

/-- C7 witness: moving from the empty square e4 in the starting position
errors; moving the e2 pawn does not. -/
theorem analyze_move_error_spec_witness :
    (∃ msg, analyze_move ((Board.from_fen
        "rnbqkbnr/pppppppp/8/8/8/8/PPPPPPPP/RNBQKBNR w KQkq - 0 1").getD Board.init)
        ⟨28⟩ ⟨36⟩ = .error msg) ∧
    (∃ r, analyze_move ((Board.from_fen
        "rnbqkbnr/pppppppp/8/8/8/8/PPPPPPPP/RNBQKBNR w KQkq - 0 1").getD Board.init)
        ⟨12⟩ ⟨28⟩ = .ok r) :=
  ⟨(analyze_move_error_spec _ _ _).1 (by decide),
   (analyze_move_error_spec _ _ _).2 (by decide)⟩

/-- C5 (amended): for distinct squares `from ≠ to` with a piece on
`from` (and Python-dict well-formed keys), the successor built by
`simulate_move` has one piece fewer when `to` was occupied and the same
count otherwise, and the moved piece is gone from `from` and present on
`to`. -/
theorem simulate_move_spec (board : Board) (from_sq to_sq : Square) (p : Piece)
    (hg : goodKeys board.pieces) (hp : board.get from_sq = some p)
    (hne : from_sq.index ≠ to_sq.index) :
    ((simulate_move board from_sq to_sq).pieces.length =
      if (board.get to_sq).isSome then board.pieces.length - 1
      else board.pieces.length) ∧
    (simulate_move board from_sq to_sq).get from_sq = none ∧
    (simulate_move board from_sq to_sq).get to_sq = some p := by
  have hp' : dictGet board.pieces from_sq.index = some p := hp
  obtain ⟨hpop2, hlen⟩ := dictPop_get_some hp'
  have hpieces : (simulate_move board from_sq to_sq).pieces =
      dictInsert (dictPop board.pieces from_sq.index).1 to_sq.index p := by
    simp only [simulate_move, hpop2]
  have hget_to : dictGet (dictPop board.pieces from_sq.index).1 to_sq.index =
      dictGet board.pieces to_sq.index :=
    dictPop_get_ne _ _ _ (fun h => hne h.symm)
  refine ⟨?_, ?_, ?_⟩
  · rw [hpieces, dictInsert_length]
    cases hto : board.get to_sq with
    | some q =>
      have hq : dictGet board.pieces to_sq.index = some q := hto
      have hany : ((dictPop board.pieces from_sq.index).1.any
          fun e => e.1 = to_sq.index) = true := by
        rw [dictGet_any, hget_to, hq]
        simp
      rw [if_pos hany]
      simp only [Option.isSome_some, if_true]
      omega
    | none =>
      have hq : dictGet board.pieces to_sq.index = none := hto
      have hany : ¬ ((dictPop board.pieces from_sq.index).1.any
          fun e => e.1 = to_sq.index) = true := by
        rw [dictGet_any, hget_to, hq]
        simp
      rw [if_neg hany]
      simp only [Option.isSome_none, Bool.false_eq_true, if_false]
      omega
  · show dictGet (simulate_move board from_sq to_sq).pieces from_sq.index = none
    rw [hpieces, dictInsert_get_ne _ _ _ _ hne]
    exact dictPop_get_self_of_good hg
  · show dictGet (simulate_move board from_sq to_sq).pieces to_sq.index = some p
    rw [hpieces]
    exact dictInsert_get_self _ _ _

/-- C5 counterexample: with `from = to = a1` holding the White king,
`to` is occupied, yet the successor's piece count is unchanged (not one
less) and the piece is still on `from` — the claim fails as stated when
`from = to`. -/
theorem simulate_move_counts_cex :
    (Board.init.set ⟨0⟩ (some ⟨PieceType.KING, Color.WHITE⟩)).get ⟨0⟩
        = some ⟨PieceType.KING, Color.WHITE⟩ ∧
    ((Board.init.set ⟨0⟩ (some ⟨PieceType.KING, Color.WHITE⟩)).get ⟨0⟩).isSome = true ∧
    ¬((simulate_move (Board.init.set ⟨0⟩ (some ⟨PieceType.KING, Color.WHITE⟩))
          ⟨0⟩ ⟨0⟩).pieces.length =
        (Board.init.set ⟨0⟩ (some ⟨PieceType.KING, Color.WHITE⟩)).pieces.length - 1 ∧
      (simulate_move (Board.init.set ⟨0⟩ (some ⟨PieceType.KING, Color.WHITE⟩))
          ⟨0⟩ ⟨0⟩).get ⟨0⟩ = none) := by
  decide

/-- C5 witness: capturing with the e4 pawn on d5 (after 1.e4 d5) drops
the count by one, empties e4 and puts the pawn on d5. -/
theorem simulate_move_spec_witness :
    (simulate_move (fenBoard "rnbqkbnr/ppp1pppp/8/3p4/4P3/8/PPPP1PPP/RNBQKBNR w KQkq d6 0 2")
        ⟨28⟩ ⟨35⟩).pieces.length =
      (if ((fenBoard "rnbqkbnr/ppp1pppp/8/3p4/4P3/8/PPPP1PPP/RNBQKBNR w KQkq d6 0 2").get
          ⟨35⟩).isSome
       then (fenBoard "rnbqkbnr/ppp1pppp/8/3p4/4P3/8/PPPP1PPP/RNBQKBNR w KQkq d6 0 2").pieces.length - 1
       else (fenBoard "rnbqkbnr/ppp1pppp/8/3p4/4P3/8/PPPP1PPP/RNBQKBNR w KQkq d6 0 2").pieces.length) ∧
    (simulate_move (fenBoard "rnbqkbnr/ppp1pppp/8/3p4/4P3/8/PPPP1PPP/RNBQKBNR w KQkq d6 0 2")
        ⟨28⟩ ⟨35⟩).get ⟨28⟩ = none ∧
    (simulate_move (fenBoard "rnbqkbnr/ppp1pppp/8/3p4/4P3/8/PPPP1PPP/RNBQKBNR w KQkq d6 0 2")
        ⟨28⟩ ⟨35⟩).get ⟨35⟩ = some ⟨PieceType.PAWN, Color.WHITE⟩ :=
  simulate_move_spec _ _ _ ⟨PieceType.PAWN, Color.WHITE⟩ (by decide) (by decide) (by decide)

/-! ### Heap lemmas for the frame property -/

lemma heapRead_append_self (h : DictHeap) (m : List (Nat × Piece)) :
    heapRead (h ++ [m]) h.length = m := by
  have hsome : (h ++ [m])[h.length]? = some m := by
    rw [List.getElem?_append_right (Nat.le_refl _)]
    simp
  simp [heapRead, List.getD_eq_getElem?_getD, hsome]

lemma heapRead_write_self (h : DictHeap) (r : Nat) (m : List (Nat × Piece))
    (hr : r < h.length) : heapRead (heapWrite h r m) r = m := by
  simp [heapRead, heapWrite, List.getD_eq_getElem?_getD, List.getElem?_set_self
    (by simpa using hr)]

lemma getElem?_write_ne (h : DictHeap) (r : Nat) (m : List (Nat × Piece)) (i : Nat)
    (hne : i ≠ r) : (heapWrite h r m)[i]? = h[i]? := by
  simp [heapWrite, List.getElem?_set_ne (fun hh => hne hh.symm)]

lemma getElem?_append_frame (h : DictHeap) (m : List (Nat × Piece)) (i : Nat)
    (hi : i < h.length) : (h ++ [m])[i]? = h[i]? :=
  List.getElem?_append_left hi

/-- One-shot description of `simulateMoveH`: the final heap is the
original plus the freshly allocated cell overwritten with the pure
`simulate_move` result, and the returned reference points at the fresh
cell. -/
lemma simulateMoveH_run (h : DictHeap) (bref : BoardRef) (from_sq to_sq : Square) :
    (simulateMoveH h bref from_sq to_sq).1 =
      heapWrite (h ++ [heapRead h bref.pieces]) h.length
        (simulate_move (derefBoard h bref) from_sq to_sq).pieces ∧
    (simulateMoveH h bref from_sq to_sq).2 =
      { pieces := h.length, turn := bref.turn.opposite,
        castling_rights := bref.castling_rights, en_passant := none,
        halfmove_clock := bref.halfmove_clock, fullmove_number := bref.fullmove_number } := by
  have hlt : h.length < (h ++ [heapRead h bref.pieces]).length := by simp
  have hcopy : heapRead (h ++ [heapRead h bref.pieces]) h.length = heapRead h bref.pieces :=
    heapRead_append_self _ _
  constructor
  · simp only [simulateMoveH, heapAlloc, hcopy, simulate_move, derefBoard]
    cases hpp : (dictPop (heapRead h bref.pieces) from_sq.index).2 with
    | some piece =>
      simp only [hpp]
      rw [heapRead_write_self _ _ _ hlt]
      simp only [heapWrite, List.set_set]
    | none =>
      simp only [hpp]
  · simp only [simulateMoveH, heapAlloc]

/-- C6: `analyze_move` (and the `simulate_move` inside it) never mutate
the caller's board: every dict cell that existed before the call is
unchanged after it, the simulated successor lives in a freshly
allocated cell distinct from the caller's, and both functions compute
exactly the pure `simulate_move`/`analyze_move` of the dereferenced
snapshot. -/
theorem analyze_move_frame (h : DictHeap) (bref : BoardRef) (from_sq to_sq : Square)
    (hb : bref.pieces < h.length) :
    (∀ i, i < h.length → (simulateMoveH h bref from_sq to_sq).1[i]? = h[i]?) ∧
    (simulateMoveH h bref from_sq to_sq).2.pieces = h.length ∧
    (simulateMoveH h bref from_sq to_sq).2.pieces ≠ bref.pieces ∧
    derefBoard (simulateMoveH h bref from_sq to_sq).1 (simulateMoveH h bref from_sq to_sq).2
      = simulate_move (derefBoard h bref) from_sq to_sq ∧
    (∀ i, i < h.length → (analyzeMoveH h bref from_sq to_sq).1[i]? = h[i]?) ∧
    (analyzeMoveH h bref from_sq to_sq).2 = analyze_move (derefBoard h bref) from_sq to_sq := by
  obtain ⟨hrun1, hrun2⟩ := simulateMoveH_run h bref from_sq to_sq
  have hframe : ∀ i, i < h.length → (simulateMoveH h bref from_sq to_sq).1[i]? = h[i]? := by
    intro i hi
    rw [hrun1, getElem?_write_ne _ _ _ _ (by omega)]
    exact getElem?_append_frame _ _ _ hi
  have hfresh : (simulateMoveH h bref from_sq to_sq).2.pieces = h.length := by
    rw [hrun2]
  have hderef : derefBoard (simulateMoveH h bref from_sq to_sq).1
      (simulateMoveH h bref from_sq to_sq).2
      = simulate_move (derefBoard h bref) from_sq to_sq := by
    have hlt : h.length < (h ++ [heapRead h bref.pieces]).length := by simp
    rw [hrun1, hrun2]
    simp only [derefBoard, heapRead_write_self _ _ _ hlt]
    simp only [simulate_move]
  refine ⟨hframe, hfresh, by omega, hderef, ?_, ?_⟩
  · intro i hi
    simp only [analyzeMoveH]
    cases hg : (derefBoard h bref).get from_sq with
    | none => simp [hg]
    | some piece => simpa [hg] using hframe i hi
  · simp only [analyzeMoveH, analyze_move]
    cases hg : (derefBoard h bref).get from_sq with
    | none => simp [hg]
    | some piece => simp [hg, hderef]

/-- C6 witness: on a one-cell heap holding the starting position, the
caller's cell is untouched by `analyze_move` of 1.e4 and the successor
cell is fresh. -/
theorem analyze_move_frame_witness :
    (analyzeMoveH [(fenBoard "rnbqkbnr/pppppppp/8/8/8/8/PPPPPPPP/RNBQKBNR w KQkq - 0 1").pieces]
        ⟨0, Color.WHITE, "KQkq", none, 0, 1⟩ ⟨12⟩ ⟨28⟩).1[0]?
      = [(fenBoard "rnbqkbnr/pppppppp/8/8/8/8/PPPPPPPP/RNBQKBNR w KQkq - 0 1").pieces][0]? ∧
    (simulateMoveH [(fenBoard "rnbqkbnr/pppppppp/8/8/8/8/PPPPPPPP/RNBQKBNR w KQkq - 0 1").pieces]
        ⟨0, Color.WHITE, "KQkq", none, 0, 1⟩ ⟨12⟩ ⟨28⟩).2.pieces
      ≠ (⟨0, Color.WHITE, "KQkq", none, 0, 1⟩ : BoardRef).pieces := by
  obtain ⟨-, -, hne, -, hfr, -⟩ := analyze_move_frame
    [(fenBoard "rnbqkbnr/pppppppp/8/8/8/8/PPPPPPPP/RNBQKBNR w KQkq - 0 1").pieces]
    ⟨0, Color.WHITE, "KQkq", none, 0, 1⟩ ⟨12⟩ ⟨28⟩ (by decide)
  exact ⟨hfr 0 (by decide), hne⟩

/-- C8: for a capture (enemy piece on `to`), the exchange estimate has
gain = captured piece's value; when recapturers exist, loss = moving
piece's value and net = gain − loss exactly when post-move defenders of
`to` are fewer than recapturers (else net = gain); and `safe` holds iff
defenders ≥ recapturers. -/
theorem analyze_move_exchange_spec (board : Board) (from_sq to_sq : Square)
    (p cap : Piece) (hp : board.get from_sq = some p) (hcap : board.get to_sq = some cap)
    (hcol : cap.color = p.color.opposite) :
    analyze_move board from_sq to_sq =
      .ok (moveReport board (simulate_move board from_sq to_sq) from_sq to_sq p) ∧
    ∃ ea, (moveReport board (simulate_move board from_sq to_sq) from_sq to_sq
        p).exchange_analysis = some ea ∧
      ea.gain = AnalyzeMove.get_piece_value cap ∧
      ((get_attackers (simulate_move board from_sq to_sq) to_sq
          (some p.color.opposite)).length ≠ 0 →
        ea.potential_loss = some (AnalyzeMove.get_piece_value p) ∧
        ea.likely_net = some (if (get_defenders (simulate_move board from_sq to_sq)
              to_sq).length <
            (get_attackers (simulate_move board from_sq to_sq) to_sq
              (some p.color.opposite)).length
          then AnalyzeMove.get_piece_value cap - AnalyzeMove.get_piece_value p
          else AnalyzeMove.get_piece_value cap)) ∧
      (ea.safe = true ↔
        (get_defenders (simulate_move board from_sq to_sq) to_sq).length ≥
          (get_attackers (simulate_move board from_sq to_sq) to_sq
            (some p.color.opposite)).length) := by
  constructor
  · simp [analyze_move, hp]
  · by_cases hrec : (get_attackers (simulate_move board from_sq to_sq) to_sq
        (some p.color.opposite)).length ≠ 0
    · apply Exists.intro
      refine ⟨?_, ?_, ?_, ?_⟩
      · simp only [moveReport, hcap]
        rw [if_pos hrec]
      · rfl
      · intro _
        refine ⟨rfl, ?_⟩
        show some (if (get_attackers (simulate_move board from_sq to_sq) to_sq
            (some p.color.opposite)).length > 0 then _ else _) = _
        rw [if_pos (by omega)]
      · show decide _ = true ↔ _
        exact decide_eq_true_iff
    · apply Exists.intro
      refine ⟨?_, ?_, ?_, ?_⟩
      · simp only [moveReport, hcap]
        rw [if_neg hrec]
      · rfl
      · intro h
        exact absurd h hrec
      · show true = true ↔ _
        simp only [true_iff]
        omega

/-- C8 witness: Nxe5 in the repo's own capture test position (after
1.e4 e5 2.Nf3 Nc6): gain 1, loss 3, net -2, unsafe. -/
theorem analyze_move_exchange_spec_witness :
    analyze_move (fenBoard "r1bqkbnr/pppp1ppp/2n5/4p3/4P3/5N2/PPPP1PPP/RNBQKB1R w KQkq - 2 3")
        ⟨21⟩ ⟨36⟩ =
      .ok (moveReport (fenBoard "r1bqkbnr/pppp1ppp/2n5/4p3/4P3/5N2/PPPP1PPP/RNBQKB1R w KQkq - 2 3")
        (simulate_move (fenBoard "r1bqkbnr/pppp1ppp/2n5/4p3/4P3/5N2/PPPP1PPP/RNBQKB1R w KQkq - 2 3")
          ⟨21⟩ ⟨36⟩) ⟨21⟩ ⟨36⟩ ⟨PieceType.KNIGHT, Color.WHITE⟩) ∧
    ∃ ea, (moveReport (fenBoard "r1bqkbnr/pppp1ppp/2n5/4p3/4P3/5N2/PPPP1PPP/RNBQKB1R w KQkq - 2 3")
        (simulate_move (fenBoard "r1bqkbnr/pppp1ppp/2n5/4p3/4P3/5N2/PPPP1PPP/RNBQKB1R w KQkq - 2 3")
          ⟨21⟩ ⟨36⟩) ⟨21⟩ ⟨36⟩ ⟨PieceType.KNIGHT, Color.WHITE⟩).exchange_analysis = some ea ∧
      ea.gain = AnalyzeMove.get_piece_value ⟨PieceType.PAWN, Color.BLACK⟩ ∧
      ((get_attackers (simulate_move
            (fenBoard "r1bqkbnr/pppp1ppp/2n5/4p3/4P3/5N2/PPPP1PPP/RNBQKB1R w KQkq - 2 3")
            ⟨21⟩ ⟨36⟩) ⟨36⟩
          (some (⟨PieceType.KNIGHT, Color.WHITE⟩ : Piece).color.opposite)).length ≠ 0 →
        ea.potential_loss = some (AnalyzeMove.get_piece_value
          ⟨PieceType.KNIGHT, Color.WHITE⟩) ∧
        ea.likely_net = some (if (get_defenders (simulate_move
              (fenBoard "r1bqkbnr/pppp1ppp/2n5/4p3/4P3/5N2/PPPP1PPP/RNBQKB1R w KQkq - 2 3")
              ⟨21⟩ ⟨36⟩) ⟨36⟩).length <
            (get_attackers (simulate_move
              (fenBoard "r1bqkbnr/pppp1ppp/2n5/4p3/4P3/5N2/PPPP1PPP/RNBQKB1R w KQkq - 2 3")
              ⟨21⟩ ⟨36⟩) ⟨36⟩
              (some (⟨PieceType.KNIGHT, Color.WHITE⟩ : Piece).color.opposite)).length
          then AnalyzeMove.get_piece_value (⟨PieceType.PAWN, Color.BLACK⟩ : Piece)
            - AnalyzeMove.get_piece_value ⟨PieceType.KNIGHT, Color.WHITE⟩
          else AnalyzeMove.get_piece_value (⟨PieceType.PAWN, Color.BLACK⟩ : Piece))) ∧
      (ea.safe = true ↔
        (get_defenders (simulate_move
            (fenBoard "r1bqkbnr/pppp1ppp/2n5/4p3/4P3/5N2/PPPP1PPP/RNBQKB1R w KQkq - 2 3")
            ⟨21⟩ ⟨36⟩) ⟨36⟩).length ≥
          (get_attackers (simulate_move
            (fenBoard "r1bqkbnr/pppp1ppp/2n5/4p3/4P3/5N2/PPPP1PPP/RNBQKB1R w KQkq - 2 3")
            ⟨21⟩ ⟨36⟩) ⟨36⟩
            (some (⟨PieceType.KNIGHT, Color.WHITE⟩ : Piece).color.opposite)).length) :=
  analyze_move_exchange_spec _ _ _ _ _ (by decide) (by decide) (by decide)

/-! ### C1: sliding-attack characterization and ray occlusion -/

lemma bishopDirs_sub : ∀ d ∈ BISHOP_DIRECTIONS, d ∈ QUEEN_DIRECTIONS :=
  fun _ hd => List.mem_append_left _ hd

lemma rookDirs_sub : ∀ d ∈ ROOK_DIRECTIONS, d ∈ QUEEN_DIRECTIONS :=
  fun _ hd => List.mem_append_right _ hd

/-- A bishop/rook/queen appears among the attackers exactly when it is
the first occupant of a geometrically compatible ray and passes the
color filter. -/
lemma slider_mem_get_attackers_iff {board : Board} {target : Square}
    {by_color : Option Color} {A : Square} {P : Piece}
    (hslider : P.piece_type ∈ [PieceType.BISHOP, PieceType.ROOK, PieceType.QUEEN]) :
    (A, P) ∈ get_attackers board target by_color ↔
      SlidingAttack board target by_color A P := by
  rw [mem_get_attackers_iff]
  constructor
  · rintro (h | h | h | h | h)
    · obtain ⟨o, ho, hoff, hget, hty, hcol⟩ := mem_knightAttackers_iff.mp h
      rw [hty] at hslider
      exact absurd hslider (by decide)
    · obtain ⟨o, ho, hoff, hget, hty, hcol⟩ := mem_kingAttackers_iff.mp h
      rw [hty] at hslider
      exact absurd hslider (by decide)
    · obtain ⟨cd, hcd, hskip, fd, hfd, hoff, hget, hty, hcol⟩ := mem_pawnAttackers_iff.mp h
      rw [hty] at hslider
      exact absurd hslider (by decide)
    · obtain ⟨d, hd, hty, hcol, j, hocc⟩ := (mem_check_sliding_iff bishopDirs_sub).mp h
      exact ⟨hcol, d, j, Or.inl ⟨hd, hty⟩, hocc⟩
    · obtain ⟨d, hd, hty, hcol, j, hocc⟩ := (mem_check_sliding_iff rookDirs_sub).mp h
      exact ⟨hcol, d, j, Or.inr ⟨hd, hty⟩, hocc⟩
  · rintro ⟨hcol, d, j, hcompat, hocc⟩
    rcases hcompat with ⟨hd, hty⟩ | ⟨hd, hty⟩
    · exact Or.inr (Or.inr (Or.inr (Or.inl
        ((mem_check_sliding_iff bishopDirs_sub).mpr ⟨d, hd, hty, hcol, j, hocc⟩))))
    · exact Or.inr (Or.inr (Or.inr (Or.inr
        ((mem_check_sliding_iff rookDirs_sub).mpr ⟨d, hd, hty, hcol, j, hocc⟩))))

lemma sliding_occlusion {board : Board} {target : Square} {by_color : Option Color}
    {A : Square} {P : Piece} (B : Square) (q : Piece)
    (hslider : P.piece_type ∈ [PieceType.BISHOP, PieceType.ROOK, PieceType.QUEEN])
    (hbet : StrictlyBetween target A B) :
    (A, P) ∉ get_attackers (board.set B (some q)) target by_color := by
  intro hmem'
  obtain ⟨hcol', d', j', hcompat', hocc'⟩ :=
    (slider_mem_get_attackers_iff hslider).mp hmem'
  obtain ⟨d2, hd2, k, m, hstepB, hstepA, hk, hkm⟩ := hbet
  have hdQ' : d' ∈ QUEEN_DIRECTIONS := by
    rcases hcompat' with ⟨hd, -⟩ | ⟨hd, -⟩
    exacts [List.mem_append_left _ hd, List.mem_append_right _ hd]
  obtain ⟨hj'_pos, hstepA', hgetA', hmin'⟩ := hocc'
  obtain ⟨hdd, hjm⟩ := stepN_unique hdQ' hd2 hj'_pos (by omega) hstepA' hstepA
  subst hdd
  have hgetB := hmin' k B (by omega) (by omega) hstepB
  have hsetB : (board.set B (some q)).get B = some q := by
    show dictGet (dictInsert board.pieces B.index q) B.index = some q
    exact dictInsert_get_self _ _ _
  rw [hsetB] at hgetB
  cases hgetB

/-- C1: (a) a slider is recorded as an attacker exactly when it is the
first occupant of a compatible ray from the target passing the color
filter (so an incompatible first occupant blocks without being
recorded); (b) consequently, occupying any square strictly between the
target and a recorded sliding attacker removes that slider from the
attacker list. -/
theorem get_attackers_sliding_spec (board : Board) (target : Square)
    (by_color : Option Color) (A : Square) (P : Piece)
    (hslider : P.piece_type ∈ [PieceType.BISHOP, PieceType.ROOK, PieceType.QUEEN]) :
    ((A, P) ∈ get_attackers board target by_color ↔
      SlidingAttack board target by_color A P) ∧
    (∀ B q, (A, P) ∈ get_attackers board target by_color → StrictlyBetween target A B →
      (A, P) ∉ get_attackers (board.set B (some q)) target by_color) :=
  ⟨slider_mem_get_attackers_iff hslider,
   fun B q _ hbet => sliding_occlusion B q hslider hbet⟩

/-- C1 witness: the rook on a1 attacks h1 across the empty first rank;
inserting a black pawn on d1 removes it from the attacker list. -/
theorem get_attackers_sliding_spec_witness :
    (((⟨0⟩, ⟨PieceType.ROOK, Color.WHITE⟩) ∈
        get_attackers (Board.init.set ⟨0⟩ (some ⟨PieceType.ROOK, Color.WHITE⟩)) ⟨7⟩ none) ↔
      SlidingAttack (Board.init.set ⟨0⟩ (some ⟨PieceType.ROOK, Color.WHITE⟩)) ⟨7⟩ none
        ⟨0⟩ ⟨PieceType.ROOK, Color.WHITE⟩) ∧
    ((⟨0⟩, ⟨PieceType.ROOK, Color.WHITE⟩) ∉
      get_attackers ((Board.init.set ⟨0⟩ (some ⟨PieceType.ROOK, Color.WHITE⟩)).set ⟨3⟩
        (some ⟨PieceType.PAWN, Color.BLACK⟩)) ⟨7⟩ none) := by
  have hspec := get_attackers_sliding_spec
    (Board.init.set ⟨0⟩ (some ⟨PieceType.ROOK, Color.WHITE⟩)) ⟨7⟩ none ⟨0⟩
    ⟨PieceType.ROOK, Color.WHITE⟩ (by decide)
  refine ⟨hspec.1, ?_⟩
  refine hspec.2 ⟨3⟩ ⟨PieceType.PAWN, Color.BLACK⟩ (by decide) ?_
  exact ⟨(-1, 0), by decide, 4, 7, by decide, by decide, by omega, by omega⟩

/-! ### C3: symmetry of threat -/

/-- A square seen by a slider's outgoing ray sees the slider back as the
first occupant of the reversed ray. -/
lemma attackRay_to_firstOcc {board : Board} {A B : Square} {P : Piece} {d : Int × Int}
    (hA : A.index < 64) (hget : board.get A = some P) (hdQ : d ∈ QUEEN_DIRECTIONS)
    (hray : B ∈ attackRay board d A 16) :
    ∃ k, FirstOccAt board B (-d.1, -d.2) k A P := by
  obtain ⟨k, hk, hstep, hmin⟩ := (mem_attackRay16_iff hdQ).mp hray
  refine ⟨k, hk, ?_, hget, ?_⟩
  · have := stepN_rev hA hstep k (Nat.le_refl k)
    simpa [Nat.sub_self, stepN] using this
  · intro k' t hk' hk'k hstept
    have hrev := stepN_rev hA hstep k' (by omega)
    rw [hrev] at hstept
    exact hmin (k - k') t (by omega) (by omega) hstept

/-- C3: if the per-piece attack projector says piece `P` on `A` attacks
`B`, then `(A, P)` is found by `get_attackers` at `B` — for all six
piece types, including color-directional pawns and occluded sliders. -/
theorem attack_symmetry (board : Board) (A : Square) (P : Piece) (B : Square)
    (hA : A.index < 64) (hget : board.get A = some P)
    (hB : B ∈ get_attacked_by_piece board A P) :
    (A, P) ∈ get_attackers board B none := by
  apply mem_get_attackers_iff.mpr
  cases hty : P.piece_type with
  | KNIGHT =>
    simp only [get_attacked_by_piece, hty] at hB
    have hno : ¬ (PieceType.KNIGHT = PieceType.ROOK ∨ PieceType.KNIGHT = PieceType.QUEEN) := by
      decide
    rw [if_neg hno, List.append_nil] at hB
    obtain ⟨o, ho, hoff⟩ := List.mem_filterMap.mp hB
    exact Or.inl (mem_knightAttackers_iff.mpr
      ⟨(-o.1, -o.2), neg_mem_knight ho, Square.offset_inv hA hoff, hget, hty, Or.inl rfl⟩)
  | KING =>
    simp only [get_attacked_by_piece, hty] at hB
    have hno : ¬ (PieceType.KING = PieceType.ROOK ∨ PieceType.KING = PieceType.QUEEN) := by
      decide
    rw [if_neg hno, List.append_nil] at hB
    obtain ⟨o, ho, hoff⟩ := List.mem_filterMap.mp hB
    exact Or.inr (Or.inl (mem_kingAttackers_iff.mpr
      ⟨(-o.1, -o.2), neg_mem_king ho, Square.offset_inv hA hoff, hget, hty, Or.inl rfl⟩))
  | PAWN =>
    simp only [get_attacked_by_piece, hty] at hB
    have hno : ¬ (PieceType.PAWN = PieceType.ROOK ∨ PieceType.PAWN = PieceType.QUEEN) := by
      decide
    rw [if_neg hno, List.append_nil] at hB
    cases hc : P.color with
    | WHITE =>
      rw [hc, if_pos (show Color.WHITE = Color.WHITE from rfl)] at hB
      obtain ⟨fd, hfd, hoff⟩ := List.mem_filterMap.mp hB
      refine Or.inr (Or.inr (Or.inl (mem_pawnAttackers_iff.mpr
        ⟨(Color.WHITE, (-1 : Int)), by decide, by simp, -fd, ?_,
          Square.offset_inv hA hoff, hget, hty, hc⟩)))
      fin_cases hfd <;> decide
    | BLACK =>
      have hno2 : ¬ (Color.BLACK = Color.WHITE) := by decide
      rw [hc, if_neg hno2] at hB
      obtain ⟨fd, hfd, hoff⟩ := List.mem_filterMap.mp hB
      refine Or.inr (Or.inr (Or.inl (mem_pawnAttackers_iff.mpr
        ⟨(Color.BLACK, (1 : Int)), by decide, by simp, -fd, ?_,
          Square.offset_inv hA hoff, hget, hty, hc⟩)))
      fin_cases hfd <;> decide
  | BISHOP =>
    simp only [get_attacked_by_piece, hty] at hB
    have hno : ¬ (PieceType.BISHOP = PieceType.ROOK ∨ PieceType.BISHOP = PieceType.QUEEN) := by
      decide
    rw [if_neg hno, List.append_nil] at hB
    obtain ⟨d, hd, hray⟩ := List.mem_flatMap.mp hB
    obtain ⟨k, hocc⟩ := attackRay_to_firstOcc hA hget (bishopDirs_sub d hd) hray
    exact Or.inr (Or.inr (Or.inr (Or.inl ((mem_check_sliding_iff bishopDirs_sub).mpr
      ⟨(-d.1, -d.2), neg_mem_bishopDirs hd, by rw [hty]; decide, Or.inl rfl, k, hocc⟩))))
  | ROOK =>
    simp only [get_attacked_by_piece, hty] at hB
    simp only [true_or, if_true, List.nil_append] at hB
    obtain ⟨d, hd, hray⟩ := List.mem_flatMap.mp hB
    obtain ⟨k, hocc⟩ := attackRay_to_firstOcc hA hget (rookDirs_sub d hd) hray
    exact Or.inr (Or.inr (Or.inr (Or.inr ((mem_check_sliding_iff rookDirs_sub).mpr
      ⟨(-d.1, -d.2), neg_mem_rookDirs hd, by rw [hty]; decide, Or.inl rfl, k, hocc⟩))))
  | QUEEN =>
    simp only [get_attacked_by_piece, hty] at hB
    simp only [or_true, if_true] at hB
    rcases List.mem_append.mp hB with hdiag | hortho
    · obtain ⟨d, hd, hray⟩ := List.mem_flatMap.mp hdiag
      obtain ⟨k, hocc⟩ := attackRay_to_firstOcc hA hget (bishopDirs_sub d hd) hray
      exact Or.inr (Or.inr (Or.inr (Or.inl ((mem_check_sliding_iff bishopDirs_sub).mpr
        ⟨(-d.1, -d.2), neg_mem_bishopDirs hd, by rw [hty]; decide, Or.inl rfl, k, hocc⟩))))
    · obtain ⟨d, hd, hray⟩ := List.mem_flatMap.mp hortho
      obtain ⟨k, hocc⟩ := attackRay_to_firstOcc hA hget (rookDirs_sub d hd) hray
      exact Or.inr (Or.inr (Or.inr (Or.inr ((mem_check_sliding_iff rookDirs_sub).mpr
        ⟨(-d.1, -d.2), neg_mem_rookDirs hd, by rw [hty]; decide, Or.inl rfl, k, hocc⟩))))

/-- C3 witness: in the starting position the knight on b1 projects an
attack on c3, and the attacker scan at c3 finds it back. -/
theorem attack_symmetry_witness :
    (⟨1⟩, (⟨PieceType.KNIGHT, Color.WHITE⟩ : Piece)) ∈
      get_attackers ((Board.from_fen
        "rnbqkbnr/pppppppp/8/8/8/8/PPPPPPPP/RNBQKBNR w KQkq - 0 1").getD Board.init)
        ⟨18⟩ none :=
  attack_symmetry _ ⟨1⟩ ⟨PieceType.KNIGHT, Color.WHITE⟩ ⟨18⟩ (by decide) (by decide)
    (by decide)

/-! ### C4: pin detection -/

/-- The first/second-occupant walk of `find_pins` realizes the
spec-level first and second occupants along the ray. -/
lemma firstTwoOcc_eq_iff {board : Board} {d : Int × Int} {s fsq ssq : Square}
    {fp sp : Piece} (hd : d ∈ QUEEN_DIRECTIONS) :
    Tactics.firstTwoOcc board d s = (some (fsq, fp), some (ssq, sp)) ↔
      ∃ i j, FirstOccAt board s d i fsq fp ∧ SecondOccAt board s d i j ssq sp := by
  unfold Tactics.firstTwoOcc
  constructor
  · intro h
    cases hw : firstOccWalk board d s 16 with
    | none =>
      rw [hw] at h
      injection h with h1 h2
      cases h1
    | some f0 =>
      rw [hw] at h
      injection h with h1 h2
      injection h1 with h1
      subst h1
      obtain ⟨i, hFirst⟩ := (firstOccWalk16_iff hd).mp hw
      obtain ⟨j', hFirst2⟩ := (firstOccWalk16_iff hd).mp h2
      obtain ⟨hipos, hstepi, hgeti, hmini⟩ := hFirst
      obtain ⟨hj'pos, hstep', hget', hmin'⟩ := hFirst2
      refine ⟨i, i + j', ⟨hipos, hstepi, hgeti, hmini⟩, by omega, ?_, hget', ?_⟩
      · rw [stepN_add s fsq d i j' hstepi]
        exact hstep'
      · intro k t hik hkj hstepk
        have hksplit : k = i + (k - i) := by omega
        rw [hksplit, stepN_add s fsq d i _ hstepi] at hstepk
        exact hmin' (k - i) t (by omega) (by omega) hstepk
  · rintro ⟨i, j, hFirst, hSecond⟩
    obtain ⟨hipos, hstepi, hgeti, hmini⟩ := hFirst
    obtain ⟨hij, hstepj, hgetj, hminj⟩ := hSecond
    have hw : firstOccWalk board d s 16 = some (fsq, fp) :=
      (firstOccWalk16_iff hd).mpr ⟨i, hipos, hstepi, hgeti, hmini⟩
    have hw2 : firstOccWalk board d fsq 16 = some (ssq, sp) := by
      apply (firstOccWalk16_iff hd).mpr
      refine ⟨j - i, by omega, ?_, hgetj, ?_⟩
      · have hjsplit : j = i + (j - i) := by omega
        rw [hjsplit, stepN_add s fsq d i _ hstepi] at hstepj
        exact hstepj
      · intro k t hk hkj hstepk
        have hstepk' : stepN s d (i + k) = some t := by
          rw [stepN_add s fsq d i k hstepi]
          exact hstepk
        exact hminj (i + k) t (by omega) (by omega) hstepk'
    rw [hw]
    dsimp only
    rw [hw2]

/-- `find_pins` records exactly the `PinSpec` pins. -/
lemma mem_find_pins_iff {board : Board} {color : Color} {r : Tactics.PinRecord} :
    r ∈ Tactics.find_pins board color ↔ PinSpec board color r := by
  unfold Tactics.find_pins PinSpec
  rw [List.mem_flatMap]
  constructor
  · rintro ⟨pe, hpe, hr⟩
    split_ifs at hr with htype
    · rw [List.mem_flatMap] at hr
      obtain ⟨d, hd, hr⟩ := hr
      rcases hw : Tactics.firstTwoOcc board d pe.1 with ⟨fopt, sopt⟩
      rcases fopt with - | ⟨fsq, fp⟩ <;> rcases sopt with - | ⟨ssq, sp⟩ <;>
        rw [hw] at hr
      · cases hr
      · cases hr
      · cases hr
      · dsimp only at hr
        by_cases hcc : fp.color = color ∧ sp.color = color.opposite
        · rw [if_pos hcc] at hr
          by_cases hcan : (if d.1.natAbs = d.2.natAbs
              then sp.piece_type ∈ [PieceType.BISHOP, PieceType.QUEEN]
              else sp.piece_type ∈ [PieceType.ROOK, PieceType.QUEEN])
          · rw [if_pos hcan, List.mem_singleton] at hr
            obtain ⟨i, j, hFirst, hSecond⟩ := (firstTwoOcc_eq_iff hd).mp hw
            exact ⟨pe.1, pe.2, fsq, fp, ssq, sp, d, i, j, hpe, htype, hd, hFirst, hSecond,
              hcc.1, hcc.2, hcan, hr⟩
          · rw [if_neg hcan] at hr
            cases hr
        · rw [if_neg hcc] at hr
          cases hr
    · cases hr
  · rintro ⟨psq, pp, fsq, fp, ssq, sp, d, i, j, hmem, htype, hd, hFirst, hSecond,
      hfc, hsc, hcompat, hr⟩
    refine ⟨(psq, pp), hmem, ?_⟩
    rw [if_pos htype, List.mem_flatMap]
    refine ⟨d, hd, ?_⟩
    rw [(firstTwoOcc_eq_iff hd).mpr ⟨i, j, hFirst, hSecond⟩]
    dsimp only
    rw [if_pos ⟨hfc, hsc⟩, if_pos hcompat, hr]
    exact List.mem_singleton.mpr rfl

/-- C4: a pin is recorded exactly when, along one of the 8 rays from a
friendly King/Queen/Rook, the first occupant is friendly and the second
is a geometrically compatible enemy slider, with `is_absolute` iff the
protected piece is the King; and on FEN `4k3/8/8/4n3/8/8/8/4R2K` the
search for Black reports the knight on e5 pinned by the rook on e1,
absolute and orthogonal. -/
theorem find_pins_spec :
    (∀ (board : Board) (color : Color) (r : Tactics.PinRecord),
      r ∈ Tactics.find_pins board color ↔ PinSpec board color r) ∧
    (Board.from_fen "4k3/8/8/4n3/8/8/8/4R2K w - - 0 1").map
        (fun b => Tactics.find_pins b Color.BLACK) =
      some [{ pinned_piece := "n", pinned_square := "e5", pinned_value := 3,
              pinning_piece := "R", pinning_square := "e1",
              protected_piece := "k", protected_square := "e8", protected_value := 100,
              pin_type := "orthogonal", is_absolute := true }] :=
  ⟨fun _ _ _ => mem_find_pins_iff, by decide⟩

/-- C4 witness: the scenario pin satisfies the spec-side description. -/
theorem find_pins_spec_witness :
    PinSpec ((Board.from_fen "4k3/8/8/4n3/8/8/8/4R2K w - - 0 1").getD Board.init)
      Color.BLACK
      { pinned_piece := "n", pinned_square := "e5", pinned_value := 3,
        pinning_piece := "R", pinning_square := "e1",
        protected_piece := "k", protected_square := "e8", protected_value := 100,
        pin_type := "orthogonal", is_absolute := true } :=
  (find_pins_spec.1 _ _ _).mp (by decide)

end ChessTools
